import Mathlib

/-!
Verification development for the OTAnalytics intersection and event-detection
core.  Python floats are embedded as exact rationals; every scenario checked
here only involves values on which float and rational arithmetic agree.
Fallible Python code (raising constructors, dict subscripts, builder methods)
is embedded with `Except`/`Option` results.
-/

namespace OTA

/-- Modelled from the spec: `OTAnalytics/domain/geometry.py` is absent from
`src/`.  A coordinate is an (x, y) pair in image space with value-based
equality. -/
structure Coordinate where
  x : ℚ
  y : ℚ
deriving DecidableEq, Repr

/-- Modelled from the spec: `OTAnalytics/domain/geometry.py` is absent from
`src/`.  An (x, y) pair in [0,1] selecting a sampling point within a
detection's bounding box. -/
structure RelativeOffsetCoordinate where
  x : ℚ
  y : ℚ
deriving DecidableEq, Repr

/-- Modelled from the spec: `OTAnalytics/domain/geometry.py` is absent from
`src/`.  A polyline given by its list of coordinates. -/
structure Line where
  coordinates : List Coordinate
deriving DecidableEq, Repr

/-- Modelled from the spec: `OTAnalytics/domain/geometry.py` is absent from
`src/`.  A polygon given by its coordinate ring. -/
structure Polygon where
  coordinates : List Coordinate
deriving DecidableEq, Repr

/-- Cross-product orientation of the triple (p, q, r): positive for a left
turn, negative for a right turn, zero for collinear points. -/
def orient (p q r : Coordinate) : ℚ :=
  (q.x - p.x) * (r.y - p.y) - (q.y - p.y) * (r.x - p.x)

/-- Whether r lies on the closed segment from p to q, assuming p, q, r are
collinear. -/
def onSegment (p q r : Coordinate) : Bool :=
  min p.x q.x ≤ r.x && r.x ≤ max p.x q.x && min p.y q.y ≤ r.y && r.y ≤ max p.y q.y

/-- Modelled from the spec: the geometry library backing
`IntersectImplementation` is absent from `src/`.  Standard closed-segment
intersection test (two segments share at least one point, touching
endpoints included). -/
def segmentsIntersect (p1 p2 q1 q2 : Coordinate) : Bool :=
  let d1 := orient q1 q2 p1
  let d2 := orient q1 q2 p2
  let d3 := orient p1 p2 q1
  let d4 := orient p1 p2 q2
  (((d1 > 0 && d2 < 0) || (d1 < 0 && d2 > 0)) &&
      ((d3 > 0 && d4 < 0) || (d3 < 0 && d4 > 0))) ||
    (d1 == 0 && onSegment q1 q2 p1) ||
    (d2 == 0 && onSegment q1 q2 p2) ||
    (d3 == 0 && onSegment p1 p2 q1) ||
    (d4 == 0 && onSegment p1 p2 q2)

/-- The consecutive segments of a polyline, as coordinate pairs. -/
def segmentsOf (l : Line) : List (Coordinate × Coordinate) :=
  l.coordinates.zip l.coordinates.tail

/-- Modelled from the spec: `line_intersects_line(a, b)` of the absent
`IntersectImplementation` is true iff the two polylines share at least one
point; realised as: some segment of one intersects some segment of the
other. -/
def lineIntersectsLine (a b : Line) : Bool :=
  (segmentsOf a).any fun sa =>
    (segmentsOf b).any fun sb => segmentsIntersect sa.1 sa.2 sb.1 sb.2

/-- One crossing test of the even-odd ray casting rule: whether the edge from
a to b crosses the horizontal ray going right from p. -/
def edgeCrossesRay (p a b : Coordinate) : Bool :=
  (decide (a.y > p.y) != decide (b.y > p.y)) &&
    decide (p.x < a.x + (p.y - a.y) * (b.x - a.x) / (b.y - a.y))

/-- Modelled from the spec: point-in-polygon of the absent
`IntersectImplementation`, realised by the standard even-odd ray casting
rule over the polygon's edges. -/
def pointInPolygon (p : Coordinate) (poly : Polygon) : Bool :=
  (poly.coordinates.zip poly.coordinates.tail).foldl
    (fun acc e => if edgeCrossesRay p e.1 e.2 then !acc else acc) false

/-- Modelled from the spec: `OTAnalytics/domain/types.py` is absent from
`src/`.  The four event types. -/
inductive EventType where
  | sectionEnter
  | sectionLeave
  | enterScene
  | leaveScene
deriving DecidableEq, Repr

/-- `TrackId` of `src/OTAnalytics/domain/track.py`: a wrapped integer id.
(The validity check id >= 1 lives in `TrackId._validate` and is not needed
by any claim.) -/
structure TrackId where
  id : ℤ
deriving DecidableEq, Repr

/-- `Detection` of `src/OTAnalytics/domain/track.py`.  The occurrence
timestamp is embedded as a rational; the originating-file reference is kept
as the file name string. -/
structure Detection where
  classification : String
  confidence : ℚ
  x : ℚ
  y : ℚ
  w : ℚ
  h : ℚ
  frame : ℕ
  occurrence : ℚ
  inputFilePath : String
  interpolatedDetection : Bool
  trackId : TrackId
deriving DecidableEq, Repr

/-- `Track` of `src/OTAnalytics/domain/track.py` (the raw record; validated
construction is `mkTrack`). -/
structure Track where
  id : TrackId
  classification : String
  detections : List Detection
deriving DecidableEq, Repr

/-- The check of `Track._validate_detections_sorted_by_occurrence`: a list
equals its stable sort by occurrence exactly when consecutive occurrences
are non-decreasing. -/
def isSortedByOccurrence (l : List Detection) : Bool :=
  decide (l.Chain' fun a b => a.occurrence ≤ b.occurrence)

/-- Validated `Track` construction: `Track._validate` of
`src/OTAnalytics/domain/track.py` raises on fewer than two detections, then
on detections not sorted by occurrence. -/
def mkTrack (id : TrackId) (classification : String) (detections : List Detection) :
    Except String Track :=
  if detections.length < 2 then
    .error "BuildTrackWithSingleDetectionError"
  else if !isSortedByOccurrence detections then
    .error "detections must be sorted by occurence"
  else
    .ok ⟨id, classification, detections⟩

/-- Set a key in an insertion-ordered association list: update in place when
the key is present, append otherwise (Python dict item assignment). -/
def assocSet (k : String) (v : ℚ) : List (String × ℚ) → List (String × ℚ)
  | [] => [(k, v)]
  | (k1, v1) :: rest =>
    if k1 = k then (k, v) :: rest else (k1, v1) :: assocSet k v rest

/-- Lookup in an insertion-ordered association list (Python `d.get(k)`). -/
def assocGet (k : String) : List (String × ℚ) → Option ℚ
  | [] => none
  | (k1, v1) :: rest => if k1 = k then some v1 else assocGet k rest

/-- One loop iteration of
`CalculateTrackClassificationByMaxConfidence.calculate`
(`src/OTAnalytics/domain/track.py`): Python's
`if classifications.get(label):` treats a missing key AND a stored sum of
0.0 alike (falsy), overwriting instead of adding in both cases. -/
def classificationStep (m : List (String × ℚ)) (p : String × ℚ) :
    List (String × ℚ) :=
  match assocGet p.1 m with
  | some v => if v ≠ 0 then assocSet p.1 (v + p.2) m else assocSet p.1 p.2 m
  | none => assocSet p.1 p.2 m

/-- Python's `max(keys, key=value)`: scan keeping the current best, replacing
it only when a strictly larger value appears (so the first maximal key
wins). -/
def pyMaxKeyAux (bk : String) (bv : ℚ) : List (String × ℚ) → String
  | [] => bk
  | (k, v) :: rest => if bv < v then pyMaxKeyAux k v rest else pyMaxKeyAux bk bv rest

/-- `CalculateTrackClassificationByMaxConfidence.calculate` of
`src/OTAnalytics/domain/track.py` on (classification, confidence) pairs;
`none` embeds the `ValueError` of `max` on an empty input. -/
def pyClassify (pairs : List (String × ℚ)) : Option String :=
  match pairs.foldl classificationStep [] with
  | [] => none
  | (k, v) :: rest => some (pyMaxKeyAux k v rest)

/-- `CalculateTrackClassificationByMaxConfidence.calculate` applied to a
track's detections. -/
def calculate (detections : List Detection) : Option String :=
  pyClassify (detections.map fun d => (d.classification, d.confidence))

/-- The summed confidence a label collects over a detection list. -/
def sumConf (label : String) (detections : List Detection) : ℚ :=
  ((detections.filter fun d => d.classification = label).map
    (fun d => d.confidence)).sum

/-- The summed value a key collects over (label, confidence) pairs. -/
def sumVal (k : String) (pairs : List (String × ℚ)) : ℚ :=
  ((pairs.filter fun p => p.1 = k).map fun p => p.2).sum

/-- A Python dict from track ids to tracks, embedded as an insertion-ordered
association list with unique keys. -/
def TrackDict := List (TrackId × Track)

/-- Python dict item assignment `d[k] = v`: update in place when present,
append otherwise. -/
def dictSet (k : TrackId) (v : Track) : TrackDict → TrackDict
  | [] => [(k, v)]
  | (k1, v1) :: rest =>
    if k1 = k then (k, v) :: rest else (k1, v1) :: dictSet k v rest

/-- Python dict lookup `d.get(k)`. -/
def dictGet (k : TrackId) : TrackDict → Option Track
  | [] => none
  | (k1, v1) :: rest => if k1 = k then some v1 else dictGet k rest

/-- Python `d.values()` in insertion order. -/
def dictValues (d : TrackDict) : List Track :=
  d.map fun p => p.2

/-- A heap of Python dict objects; `TrackRepository.tracks` holds a reference
(a cell index) into this heap, so that two repositories can alias one dict
object. -/
structure Heap where
  cells : List TrackDict

/-- A `TrackRepository` instance of `src/OTAnalytics/domain/track.py`,
reduced to the reference its `tracks` attribute holds. -/
structure TrackRepository where
  tracksRef : ℕ

/-- The heap as it stands when `domain/track.py` has been imported: defining
`TrackRepository.__init__(self, tracks: dict[TrackId, Track] = {})`
evaluates the default expression `{}` once, allocating one dict object
(cell 0) shared by every later default-argument call. -/
def moduleLoadHeap : Heap := ⟨[[]]⟩

/-- `TrackRepository()` without a `tracks` argument: `self.tracks` is bound
to the module-level default dict object, cell 0. -/
def mkTrackRepositoryDefault : TrackRepository := ⟨0⟩

/-- `TrackRepository(tracks)` with an explicit dict: allocates nothing new
but binds the passed object; here the caller passes a fresh dict, appended
as a new heap cell. -/
def mkTrackRepositoryWith (h : Heap) (d : TrackDict) : Heap × TrackRepository :=
  (⟨h.cells ++ [d]⟩, ⟨h.cells.length⟩)

/-- Mutate the heap cell a repository references. -/
def heapModify (h : Heap) (r : TrackRepository) (f : TrackDict → TrackDict) : Heap :=
  ⟨h.cells.set r.tracksRef (f ((h.cells.get? r.tracksRef).getD []))⟩

/-- `TrackRepository.add` (ignoring observer notification, which does not
touch the store): `self.tracks[track.id] = track`. -/
def TrackRepository.add (r : TrackRepository) (h : Heap) (track : Track) : Heap :=
  heapModify h r (dictSet track.id track)

/-- `TrackRepository.get_all`: `self.tracks.values()`. -/
def TrackRepository.get_all (r : TrackRepository) (h : Heap) : List Track :=
  dictValues ((h.cells.get? r.tracksRef).getD [])

/-- `TrackRepository.get_for`: `return self.tracks[id]` — a Python dict
subscript, which raises `KeyError` for a missing key (despite the
`Optional[Track]` return annotation it never returns `None`). -/
def TrackRepository.get_for (r : TrackRepository) (h : Heap) (id : TrackId) :
    Except String Track :=
  match dictGet id ((h.cells.get? r.tracksRef).getD []) with
  | some track => .ok track
  | none => .error "KeyError"

/-- `LineSection` of `src/OTAnalytics/domain/section.py` (raw record;
validated construction is `mkLineSection`).  The plugin-data bag is an
uninterpreted key-value store. -/
structure LineSection where
  id : String
  relativeOffsetCoordinates : List (EventType × RelativeOffsetCoordinate)
  pluginData : List (String × String)
  start : Coordinate
  end_ : Coordinate
deriving DecidableEq, Repr

/-- `LineSection.get_coordinates`. -/
def LineSection.get_coordinates (s : LineSection) : List Coordinate :=
  [s.start, s.end_]

/-- Validated `LineSection` construction: `LineSection._validate` raises when
start and end coincide. -/
def mkLineSection (id : String)
    (relativeOffsetCoordinates : List (EventType × RelativeOffsetCoordinate))
    (pluginData : List (String × String)) (start end_ : Coordinate) :
    Except String LineSection :=
  if start = end_ then
    .error "Start and end point of coordinate must be different to be a line"
  else
    .ok ⟨id, relativeOffsetCoordinates, pluginData, start, end_⟩

/-- `Area` of `src/OTAnalytics/domain/section.py` (raw record; validated
construction is `mkArea`). -/
structure Area where
  id : String
  relativeOffsetCoordinates : List (EventType × RelativeOffsetCoordinate)
  pluginData : List (String × String)
  coordinates : List Coordinate
deriving DecidableEq, Repr

/-- Validated `Area` construction: `Area._validate` raises when the ring has
fewer than four coordinates, then when the first coordinate differs from the
last. -/
def mkArea (id : String)
    (relativeOffsetCoordinates : List (EventType × RelativeOffsetCoordinate))
    (pluginData : List (String × String)) (coordinates : List Coordinate) :
    Except String Area :=
  if coordinates.length < 4 then
    .error "Number of coordinates to define a valid area must be greater equal four"
  else if coordinates.head? ≠ coordinates.getLast? then
    .error "Coordinates do not define a closed area"
  else
    .ok ⟨id, relativeOffsetCoordinates, pluginData, coordinates⟩

/-- Modelled from the spec: `OTAnalytics/domain/event.py` is absent from
`src/`.  The event record of spec section 3, restricted to the fields the
intersection strategies compute (the hostname field, a pure parse of the
video filename orthogonal to the intersection logic, is not modelled). -/
structure Event where
  roadUserId : ℤ
  roadUserType : String
  occurrence : ℚ
  frameNumber : ℕ
  sectionId : Option String
  eventCoordinate : Coordinate
  eventType : EventType
  directionVector : ℚ × ℚ
  videoName : String
deriving DecidableEq, Repr

/-- Modelled from the spec: `SectionEventBuilder` of the absent
`OTAnalytics/domain/event.py` — a stateful accumulator of section id, event
type, direction vector, event coordinate and road-user type. -/
structure SectionEventBuilder where
  sectionId : Option String := none
  eventType : Option EventType := none
  directionVector : Option (ℚ × ℚ) := none
  eventCoordinate : Option Coordinate := none
  roadUserType : Option String := none
deriving DecidableEq, Repr

def SectionEventBuilder.add_section_id (b : SectionEventBuilder) (sid : String) :
    SectionEventBuilder :=
  { b with sectionId := some sid }

def SectionEventBuilder.add_event_type (b : SectionEventBuilder) (t : EventType) :
    SectionEventBuilder :=
  { b with eventType := some t }

def SectionEventBuilder.add_road_user_type (b : SectionEventBuilder) (t : String) :
    SectionEventBuilder :=
  { b with roadUserType := some t }

def SectionEventBuilder.add_direction_vector (b : SectionEventBuilder) (v : ℚ × ℚ) :
    SectionEventBuilder :=
  { b with directionVector := some v }

def SectionEventBuilder.add_event_coordinate (b : SectionEventBuilder) (x y : ℚ) :
    SectionEventBuilder :=
  { b with eventCoordinate := some ⟨x, y⟩ }

/-- Modelled from the spec: `SectionEventBuilder.create_event` fails when any
required accumulated field is unset; otherwise it stamps an event from the
accumulated fields and the given detection. -/
def SectionEventBuilder.create_event (b : SectionEventBuilder) (d : Detection) :
    Option Event :=
  match b.sectionId, b.eventType, b.directionVector, b.eventCoordinate,
      b.roadUserType with
  | some sid, some et, some dv, some ec, some rut =>
    some ⟨d.trackId.id, rut, d.occurrence, d.frame, some sid, ec, et, dv,
      d.inputFilePath⟩
  | _, _, _, _, _ => none

/-- Modelled from the spec: `Intersector._select_coordinate_in_detection` of
the absent `OTAnalytics/domain/intersect.py` — sample the point of a
detection's bounding box selected by a relative offset. -/
def selectCoordinateInDetection (d : Detection) (off : RelativeOffsetCoordinate) :
    Coordinate :=
  ⟨d.x + d.w * off.x, d.y + d.h * off.y⟩

/-- Modelled from the spec: `Intersector._calculate_direction_vector` of the
absent `OTAnalytics/domain/intersect.py` — the vector from the first to the
second coordinate. -/
def calculateDirectionVector (a b : Coordinate) : ℚ × ℚ :=
  (b.x - a.x, b.y - a.y)

/-- The consecutive detection pairs `zip(track.detections[0:-1],
track.detections[1:])`. -/
def consecutivePairs {α : Type} (l : List α) : List (α × α) :=
  (l.dropLast).zip l.tail

/-- The track polyline built by sampling one offset coordinate per detection
(`track_as_geometry` in `src/OTAnalytics/plugin_intersect/simple_intersect.py`). -/
def trackGeometry (track : Track) (off : RelativeOffsetCoordinate) : Line :=
  ⟨track.detections.map fun d => selectCoordinateInDetection d off⟩

/-- The pair loop of `SimpleIntersectBySmallestTrackSegments.intersect`
(`src/OTAnalytics/plugin_intersect/simple_intersect.py` lines 64-88),
threading the mutable event builder; `none` embeds an exception from
`create_event`. -/
def smallestSegmentsWalk (impl : Line → Line → Bool) (sectionGeom : Line)
    (off : RelativeOffsetCoordinate) (b : SectionEventBuilder) :
    List Detection → Option (List Event)
  | [] => some []
  | [_] => some []
  | c :: n :: rest =>
    let cc := selectCoordinateInDetection c off
    let nc := selectCoordinateInDetection n off
    if impl sectionGeom ⟨[cc, nc]⟩ then
      let b1 := (b.add_direction_vector
        (calculateDirectionVector cc nc)).add_event_coordinate nc.x nc.y
      match b1.create_event n with
      | some e => (smallestSegmentsWalk impl sectionGeom off b1 (n :: rest)).map
          fun evs => e :: evs
      | none => none
    else smallestSegmentsWalk impl sectionGeom off b (n :: rest)

/-- `SimpleIntersectBySmallestTrackSegments.intersect` of
`src/OTAnalytics/plugin_intersect/simple_intersect.py`, parametrised over
the `IntersectImplementation.line_intersects_line` predicate.  `none`
embeds an exception (missing offset for SECTION_ENTER, or a builder setup
error inside `create_event`). -/
def SimpleIntersectBySmallestTrackSegments.intersect (impl : Line → Line → Bool)
    (line_section : LineSection) (track : Track) (event_builder : SectionEventBuilder) :
    Option (List Event) :=
  let lineSectionAsGeometry : Line := ⟨line_section.get_coordinates⟩
  let b := event_builder.add_road_user_type track.classification
  match List.lookup EventType.sectionEnter line_section.relativeOffsetCoordinates with
  | none => none
  | some off =>
    if !impl lineSectionAsGeometry (trackGeometry track off) then some []
    else smallestSegmentsWalk impl lineSectionAsGeometry off b track.detections

/-- The state-flip loop of `SimpleIntersectAreaByTrackPoints.intersect`
(`src/OTAnalytics/plugin_intersect/simple_intersect.py` lines 149-176):
`state` is `section_currently_entered`, `prevC` the previous sampled
coordinate. -/
def areaPointsLoop (inside : Coordinate → Polygon → Bool) (poly : Polygon)
    (off : RelativeOffsetCoordinate) (b : SectionEventBuilder) (state : Bool)
    (prevC : Coordinate) : List Detection → Option (List Event)
  | [] => some []
  | d :: rest =>
    let c := selectCoordinateInDetection d off
    let entered := inside c poly
    if state = entered then areaPointsLoop inside poly off b state c rest
    else
      let b1 := (((b.add_direction_vector
        (calculateDirectionVector prevC c)).add_event_coordinate c.x c.y).add_event_type
          (if entered then EventType.sectionEnter else EventType.sectionLeave))
      match b1.create_event d with
      | some e => (areaPointsLoop inside poly off b1 entered c rest).map
          fun evs => e :: evs
      | none => none

/-- `SimpleIntersectAreaByTrackPoints.intersect` of
`src/OTAnalytics/plugin_intersect/simple_intersect.py`, parametrised over
the point-in-polygon predicate behind
`IntersectImplementation.are_coordinates_within_polygon` (which maps it over
the sampled points).  `none` embeds an exception: missing SECTION_ENTER
offset, `section_entered_mask[0]` on an empty track,
`track_coordinates[1]` on a single-detection track starting inside, or a
builder setup error. -/
def SimpleIntersectAreaByTrackPoints.intersect (inside : Coordinate → Polygon → Bool)
    (area : Area) (track : Track) (event_builder : SectionEventBuilder) :
    Option (List Event) :=
  let areaAsPolygon : Polygon := ⟨area.coordinates⟩
  match List.lookup EventType.sectionEnter area.relativeOffsetCoordinates with
  | none => none
  | some off =>
    let b := event_builder.add_road_user_type track.classification
    match track.detections with
    | [] => none
    | d0 :: drest =>
      let c0 := selectCoordinateInDetection d0 off
      let trackStartsInsideArea := inside c0 areaAsPolygon
      let synth : Option (SectionEventBuilder × List Event) :=
        if trackStartsInsideArea then
          match drest with
          | [] => none
          | d1 :: _ =>
            let c1 := selectCoordinateInDetection d1 off
            let b1 := ((((b.add_event_type
              EventType.sectionEnter).add_road_user_type
                d0.classification).add_direction_vector
                  (calculateDirectionVector c0 c1)).add_event_coordinate c0.x c0.y)
            match b1.create_event d0 with
            | some e => some (b1, [e])
            | none => none
        else some (b, [])
      match synth with
      | none => none
      | some (b2, initEvents) =>
        (areaPointsLoop inside areaAsPolygon off b2 trackStartsInsideArea c0
          drest).map fun evs => initEvents ++ evs

/-- Python list subscript `l[i]` with negative-index wrap-around; `none`
embeds `IndexError`. -/
def pyGet {α : Type} (l : List α) (i : ℤ) : Option α :=
  if 0 ≤ i then l.get? i.toNat
  else if 0 ≤ i + l.length then l.get? (i + l.length).toNat
  else none

/-- The event loop of `SimpleIntersectBySplittingTrackLine.intersect`
(`src/OTAnalytics/plugin_intersect/simple_intersect.py` lines 219-245):
`currentIdx` is the running cumulative coordinate count, `n` the 1-based
index of the sub-line being processed. -/
def splittingLoop (b : SectionEventBuilder) (trackGeom : Line)
    (detections : List Detection) (currentIdx : ℕ) (n : ℕ) :
    List Line → Option (List Event)
  | [] => some []
  | sl :: rest =>
    let detectionIndex : ℤ := (currentIdx : ℤ) - 2 * n + 1
    match pyGet detections detectionIndex,
        pyGet trackGeom.coordinates detectionIndex,
        pyGet trackGeom.coordinates (detectionIndex - 1) with
    | some selectedDetection, some selC, some prevC =>
      let b1 := (b.add_direction_vector
        (calculateDirectionVector prevC selC)).add_event_coordinate selC.x selC.y
      match b1.create_event selectedDetection with
      | some e =>
        (splittingLoop b1 trackGeom detections
          (currentIdx + sl.coordinates.length) (n + 1) rest).map fun evs => e :: evs
      | none => none
    | _, _, _ => none

/-- `SimpleIntersectBySplittingTrackLine.intersect` of
`src/OTAnalytics/plugin_intersect/simple_intersect.py`, parametrised over
the `IntersectImplementation.split_line_with_line` function.  `none` embeds
an exception: unset builder event type (the explicit `ValueError`), missing
offset for that event type, an `IndexError` on a bad detection index, or a
builder setup error. -/
def SimpleIntersectBySplittingTrackLine.intersect
    (split : Line → Line → Option (List Line)) (line_section : LineSection)
    (track : Track) (event_builder : SectionEventBuilder) : Option (List Event) :=
  let lineSectionAsGeometry : Line := ⟨line_section.get_coordinates⟩
  match event_builder.eventType with
  | none => none
  | some et =>
    match List.lookup et line_section.relativeOffsetCoordinates with
    | none => none
    | some off =>
      let splittedLines := split (trackGeometry track off) lineSectionAsGeometry
      let b := event_builder.add_road_user_type track.classification
      match splittedLines with
      | none => some []
      | some [] => some []
      | some (first :: rest) =>
        splittingLoop b (trackGeometry track off) track.detections
          first.coordinates.length 1 rest

/-- The claim's detection-index convention for the splitting strategy: the
cumulative coordinate count of the first n sub-lines, minus 2n, plus 1. -/
def detIdx (splitted : List Line) (n : ℕ) : ℤ :=
  ((splitted.take n).map fun sl => (sl.coordinates.length : ℤ)).sum - 2 * n + 1

/-- Placeholder detection used only as the default of guarded lookups in
closed-form statements. -/
def defaultDetection : Detection := ⟨"", 0, 0, 0, 0, 0, 1, 0, "", false, ⟨0⟩⟩

/-- The detection index the splitting loop computes for the j-th processed
sub-line when the loop starts with cumulative count `cum` and 1-based
sub-line counter `n`. -/
def splitIdx (cum n : ℕ) (subLines : List Line) (j : ℕ) : ℤ :=
  (cum : ℤ) + ((subLines.take j).map fun sl => (sl.coordinates.length : ℤ)).sum -
    2 * ((n : ℤ) + (j : ℤ)) + 1

/-- The event the splitting strategy stamps for the detection index `idx`
(lookups guarded by defaults; the theorems' hypotheses ensure they hit). -/
def splitEvent (trackGeom : Line) (detections : List Detection) (sid : String)
    (et : EventType) (rut : String) (idx : ℤ) : Event :=
  let d := (pyGet detections idx).getD defaultDetection
  let c := (pyGet trackGeom.coordinates idx).getD ⟨0, 0⟩
  let p := (pyGet trackGeom.coordinates (idx - 1)).getD ⟨0, 0⟩
  ⟨d.trackId.id, rut, d.occurrence, d.frame, some sid, c, et,
    calculateDirectionVector p c, d.inputFilePath⟩

end OTA

namespace CutDomain

/-!
`src/OTAnalytics/plugin_intersect/simple/cut_tracks_with_sections.py`
imports a revision of `OTAnalytics/domain/track.py` (string-valued
`TrackId`, a `TrackBuilder` base class, detections carrying a `video_name`)
that is absent from `src/`; its value types are modelled here from the
spec's data model and the call sites inside the cut module.
-/

/-- Modelled from the spec: the string-valued `TrackId` used by the cut
module (`TrackId(track_id)` with `track_id: str`). -/
structure TrackId where
  id : String
deriving DecidableEq, Repr

/-- Modelled from the spec: the `Detection` revision used by the cut module,
with fields in the positional order of the constructor call in
`SimpleCutTrackSegmentBuilder._build_detections`. -/
structure Detection where
  classification : String
  confidence : ℚ
  x : ℚ
  y : ℚ
  w : ℚ
  h : ℚ
  frame : ℕ
  occurrence : ℚ
  interpolatedDetection : Bool
  trackId : TrackId
  videoName : String
deriving DecidableEq, Repr

/-- Modelled from the spec: the `Track` record of the revision the cut
module uses. -/
structure Track where
  id : TrackId
  classification : String
  detections : List Detection
deriving DecidableEq, Repr

/-- Detections sorted by occurrence (adjacent occurrences non-decreasing). -/
def isSortedByOccurrence (l : List Detection) : Bool :=
  decide (l.Chain' fun a b => a.occurrence ≤ b.occurrence)

/-- Modelled from the spec: validated `Track` construction — a track with
fewer than two detections, or detections not sorted by occurrence, is a
construction error. -/
def mkTrack (id : TrackId) (classification : String) (detections : List Detection) :
    Except String Track :=
  if detections.length < 2 then
    .error "BuildTrackWithSingleDetectionError"
  else if !isSortedByOccurrence detections then
    .error "detections must be sorted by occurence"
  else
    .ok ⟨id, classification, detections⟩

/-- The mutable state of `SimpleCutTrackSegmentBuilder`
(`src/OTAnalytics/plugin_intersect/simple/cut_tracks_with_sections.py`). -/
structure TrackBuilder where
  trackId : Option TrackId := none
  detections : List Detection := []
deriving DecidableEq, Repr

/-- `SimpleCutTrackSegmentBuilder.add_id`. -/
def TrackBuilder.add_id (b : TrackBuilder) (track_id : String) : TrackBuilder :=
  { b with trackId := some ⟨track_id⟩ }

/-- `SimpleCutTrackSegmentBuilder.add_detection`. -/
def TrackBuilder.add_detection (b : TrackBuilder) (d : Detection) : TrackBuilder :=
  { b with detections := b.detections ++ [d] }

/-- `SimpleCutTrackSegmentBuilder._build_detections`: reconstruct every
accumulated detection with the new track id in place of the original one
(constructor arguments in source order); errors when no id is set. -/
def TrackBuilder.build_detections (b : TrackBuilder) : Except String (List Detection) :=
  match b.trackId with
  | none => .error "Track builder setup error occurred. TrackId not set."
  | some tid =>
    .ok (b.detections.map fun d =>
      ⟨d.classification, d.confidence, d.x, d.y, d.w, d.h, d.frame, d.occurrence,
        d.interpolatedDetection, tid, d.videoName⟩)

/-- A detection rebuilt with a substituted track id (the per-detection body
of `_build_detections`). -/
def retag (tid : TrackId) (d : Detection) : Detection :=
  ⟨d.classification, d.confidence, d.x, d.y, d.w, d.h, d.frame, d.occurrence,
    d.interpolatedDetection, tid, d.videoName⟩

/-- `SimpleCutTrackSegmentBuilder.build`: rebuild the detections, compute
the sub-track classification with the max-confidence-sum calculator,
construct the track, and reset the builder on success.  `Except.error`
embeds the exceptions of `TrackBuilderError`, of `max` on an empty
detection list, and of `Track` construction. -/
def TrackBuilder.build (b : TrackBuilder) : Except String (Track × TrackBuilder) :=
  match b.trackId with
  | none => .error "Track builder setup error occurred. TrackId not set."
  | some tid =>
    match b.build_detections with
    | .error e => .error e
    | .ok detections =>
      match OTA.pyClassify (detections.map fun d => (d.classification, d.confidence)) with
      | none => .error "ValueError: max() arg is an empty sequence"
      | some classification =>
        match mkTrack tid classification detections with
        | .error e => .error e
        | .ok track => .ok (track, {})

/-- `SimpleCutTracksWithSection._build_track`: set the id, append the given
detection and build. -/
def buildTrack (b : TrackBuilder) (track_id : String) (d : Detection) :
    Except String (Track × TrackBuilder) :=
  ((b.add_id track_id).add_detection d).build

/-- The detection-pair loop of
`SimpleCutTracksWithSection._cut_track_with_section`, parametrised over the
segment-against-cutting-line intersection test (the shapely geometry is
absent from `src/`).  After the loop the track's last detection closes the
final sub-track. -/
def cutLoop (intersects : Detection → Detection → Bool) (origId : String)
    (b : TrackBuilder) (acc : List Track) :
    List Detection → Except String (List Track × TrackBuilder)
  | [] => .error "IndexError: last detection of an empty track"
  | [last] =>
    match buildTrack b (origId ++ "_" ++ toString (acc.length + 1)) last with
    | .error e => .error e
    | .ok (t, b1) => .ok (acc ++ [t], b1)
  | c :: n :: rest =>
    if intersects c n then
      match buildTrack b (origId ++ "_" ++ toString (acc.length + 1)) c with
      | .error e => .error e
      | .ok (t, b1) => cutLoop intersects origId b1 (acc ++ [t]) (n :: rest)
    else cutLoop intersects origId (b.add_detection c) acc (n :: rest)

/-- `SimpleCutTracksWithSection._cut_track_with_section` of
`src/OTAnalytics/plugin_intersect/simple/cut_tracks_with_sections.py`. -/
def cutTrackWithSection (intersects : Detection → Detection → Bool)
    (track : Track) (b : TrackBuilder) : Except String (List Track × TrackBuilder) :=
  cutLoop intersects track.id.id b [] track.detections

end CutDomain

namespace OTA

/-! Concrete instances used to evaluate the theorems on the spec's example
scenarios. -/

/-- First detection of the spec's smallest-segments scenario, sampled at
(0, 5). -/
def detA1 : Detection :=
  ⟨"car", 1/2, 0, 5, 0, 0, 1, 0, "myhostname_file.otdet", false, ⟨1⟩⟩

/-- Second detection of the spec's smallest-segments scenario, sampled at
(10, 5). -/
def detA2 : Detection :=
  ⟨"car", 1/2, 10, 5, 0, 0, 2, 1, "myhostname_file.otdet", false, ⟨1⟩⟩

/-- The track with detections sampled at (0,5) and (10,5). -/
def trackA : Track := ⟨⟨1⟩, "car", [detA1, detA2]⟩

/-- The vertical line section from (5,0) to (5,10) with zero offset for
SECTION_ENTER. -/
def lineSectionA : LineSection :=
  ⟨"N", [(EventType.sectionEnter, ⟨0, 0⟩)], [], ⟨5, 0⟩, ⟨5, 10⟩⟩

/-- A section event builder seeded with section id and SECTION_ENTER, as
`SectionActionDetector` seeds it. -/
def builderA : SectionEventBuilder :=
  { sectionId := some "N", eventType := some EventType.sectionEnter }

/-- Area-strategy scenario detection sampled at (-5, 5): outside the
area. -/
def detB0 : Detection :=
  ⟨"car", 1/2, -5, 5, 0, 0, 1, 0, "cam_video.mp4", false, ⟨2⟩⟩

/-- Area-strategy scenario detection sampled at (5, 5): inside the area. -/
def detB1 : Detection :=
  ⟨"car", 1/2, 5, 5, 0, 0, 2, 1, "cam_video.mp4", false, ⟨2⟩⟩

/-- Area-strategy scenario detection sampled at (15, 5): outside again. -/
def detB2 : Detection :=
  ⟨"car", 1/2, 15, 5, 0, 0, 3, 2, "cam_video.mp4", false, ⟨2⟩⟩

/-- The outside-inside-outside track of the area scenario. -/
def trackB : Track := ⟨⟨2⟩, "car", [detB0, detB1, detB2]⟩

/-- The square area section of the spec's concrete scenario. -/
def areaB : Area :=
  ⟨"A", [(EventType.sectionEnter, ⟨0, 0⟩)], [],
    [⟨0, 0⟩, ⟨0, 10⟩, ⟨10, 10⟩, ⟨10, 0⟩, ⟨0, 0⟩]⟩

/-- A builder seeded with the area's section id. -/
def builderB : SectionEventBuilder := { sectionId := some "A" }

/-- Splitting-strategy scenario detection sampled at (20, 5). -/
def detC2 : Detection :=
  ⟨"car", 1/2, 20, 5, 0, 0, 3, 2, "myhostname_file.otdet", false, ⟨3⟩⟩

/-- A three-detection track sampled at (0,5), (10,5), (20,5), crossing the
vertical line section once between its first two points. -/
def trackC : Track := ⟨⟨3⟩, "car", [detA1, detA2, detC2]⟩

/-- A concrete `split_line_with_line` result for `trackC` against
`lineSectionA`: the polyline partitioned at the single intersection point
(5,5), sub-lines in the subject's original point order. -/
def splitC : Line → Line → Option (List Line) := fun _ _ =>
  some [⟨[⟨0, 5⟩, ⟨5, 5⟩]⟩, ⟨[⟨5, 5⟩, ⟨10, 5⟩, ⟨20, 5⟩]⟩]

/-- A track stored in the repository scenarios. -/
def trackF : Track := ⟨⟨4⟩, "car", [detA1, detA2]⟩

/-- A lower-confidence detection of a second label, for the classification
scenario. -/
def detH : Detection := ⟨"bike", 1/4, 0, 0, 0, 0, 3, 2, "cam_x.mp4", false, ⟨1⟩⟩

end OTA

namespace CutDomain

/-- Cut scenario detection at occurrence 0 (classification car). -/
def detD1 : Detection := ⟨"car", 1/2, 0, 0, 0, 0, 1, 0, false, ⟨"7"⟩, "cam_video.mp4"⟩

/-- Cut scenario detection at occurrence 1 (classification car). -/
def detD2 : Detection := ⟨"car", 1/2, 1, 0, 0, 0, 2, 1, false, ⟨"7"⟩, "cam_video.mp4"⟩

/-- Cut scenario detection at occurrence 2 (classification bike). -/
def detD3 : Detection := ⟨"bike", 3/4, 2, 0, 0, 0, 3, 2, false, ⟨"7"⟩, "cam_video.mp4"⟩

/-- Cut scenario detection at occurrence 3 (classification bike). -/
def detD4 : Detection := ⟨"bike", 3/4, 3, 0, 0, 0, 4, 3, false, ⟨"7"⟩, "cam_video.mp4"⟩

/-- A four-detection track whose middle segment crosses the cutting
section. -/
def trackD : Track := ⟨⟨"7"⟩, "car", [detD1, detD2, detD3, detD4]⟩

/-- A segment test that fires exactly on the pair whose earlier detection
has occurrence 1 — i.e. exactly on the middle pair of `trackD`. -/
def crossAtMiddle : Detection → Detection → Bool := fun c _ => c.occurrence == 1

/-- A two-detection track for the boundary-crossing counterexample. -/
def trackE : Track :=
  ⟨⟨"9"⟩, "car",
    [⟨"car", 1/2, 0, 0, 0, 0, 1, 0, false, ⟨"9"⟩, "cam_video.mp4"⟩,
      ⟨"car", 1/2, 1, 0, 0, 0, 2, 1, false, ⟨"9"⟩, "cam_video.mp4"⟩]⟩

/-- A segment test that always fires: `trackE`'s single segment crosses
exactly once. -/
def alwaysCross : Detection → Detection → Bool := fun _ _ => true

/-- A builder state holding one accumulated detection and a set id. -/
def builderG : TrackBuilder := { trackId := some ⟨"7_1"⟩, detections := [detD1] }

end CutDomain

open OTA

/-- Claim C7: constructing a Track fails when the detections list has fewer
than 2 elements, fails when the detections are not sorted in non-decreasing
occurrence order, and succeeds for every list of at least 2 detections
sorted by occurrence. -/
theorem track_construction_validates (id : TrackId) (cls : String)
    (ds : List Detection) :
    (∃ t, mkTrack id cls ds = Except.ok t) ↔
      2 ≤ ds.length ∧ isSortedByOccurrence ds = true := by
  by_cases h1 : ds.length < 2
  · simp only [mkTrack, if_pos h1]
    constructor
    · rintro ⟨t, ht⟩; cases ht
    · rintro ⟨h, -⟩; omega
  · by_cases h2 : isSortedByOccurrence ds
    · refine iff_of_true ⟨⟨id, cls, ds⟩, ?_⟩ ⟨by omega, h2⟩
      simp [mkTrack, if_neg h1, h2]
    · simp only [mkTrack, if_neg h1, Bool.not_eq_true] at *
      constructor
      · rintro ⟨t, ht⟩
        rw [Bool.eq_false_iff] at h2
        simp [h2] at ht
      · rintro ⟨-, h⟩; rw [h] at h2; cases h2

/-- Claim C8: LineSection construction fails exactly when start = end, and
Area construction fails exactly when the ring has fewer than 4 coordinates
or is not closed; both succeed otherwise. -/
theorem section_construction_validates (id : String)
    (offs : List (EventType × RelativeOffsetCoordinate))
    (pd : List (String × String)) (s e : Coordinate) (cs : List Coordinate) :
    ((∃ ls, mkLineSection id offs pd s e = Except.ok ls) ↔ s ≠ e) ∧
      ((∃ a, mkArea id offs pd cs = Except.ok a) ↔
        4 ≤ cs.length ∧ cs.head? = cs.getLast?) := by
  constructor
  · by_cases h : s = e
    · simp [mkLineSection, h]
    · simp [mkLineSection, h]
  · by_cases h1 : cs.length < 4
    · simp only [mkArea, if_pos h1]
      constructor
      · rintro ⟨a, ha⟩; cases ha
      · rintro ⟨h, -⟩; omega
    · by_cases h2 : cs.head? = cs.getLast?
      · refine iff_of_true ⟨⟨id, offs, pd, cs⟩, ?_⟩ ⟨by omega, h2⟩
        simp [mkArea, if_neg h1, h2]
      · simp only [mkArea, if_neg h1]
        constructor
        · rintro ⟨a, ha⟩
          simp [if_pos (show cs.head? ≠ cs.getLast? from h2)] at ha
        · rintro ⟨-, h⟩; exact absurd h h2

/-- Claim C10: `TrackRepository.get_for` raises KeyError for every missing
id (it never returns None despite the Optional annotation), and returns the
stored track for every present id. -/
theorem track_repository_get_for_keyerror (r : TrackRepository) (h : Heap)
    (id : TrackId) :
    (TrackRepository.get_for r h id = Except.error "KeyError" ↔
      dictGet id ((h.cells.get? r.tracksRef).getD []) = none) ∧
      ∀ t, TrackRepository.get_for r h id = Except.ok t ↔
        dictGet id ((h.cells.get? r.tracksRef).getD []) = some t := by
  unfold TrackRepository.get_for
  cases hd : dictGet id ((h.cells.get? r.tracksRef).getD []) <;> simp

/-- The value just written by dict item assignment is among the dict's
values. -/
theorem mem_dictValues_dictSet (d : TrackDict) (t : Track) :
    t ∈ dictValues (dictSet t.id t d) := by
  induction d with
  | nil => simp [dictSet, dictValues]
  | cons kv rest ih =>
    by_cases h : kv.1 = t.id
    · simp [dictSet, h, dictValues]
    · simpa [dictSet, h, dictValues] using Or.inr ih

/-- Claim C9: two `TrackRepository` instances both constructed without a
`tracks` argument share the single mutable default dict (cell 0), so a
track added through the first is visible through `get_all` of the second. -/
theorem track_repository_default_argument_aliasing (h : Heap) (t : Track)
    (hcell : 0 < h.cells.length) :
    t ∈ TrackRepository.get_all mkTrackRepositoryDefault
        (TrackRepository.add mkTrackRepositoryDefault h t) := by
  obtain ⟨cells⟩ := h
  cases cells with
  | nil => simp at hcell
  | cons c rest =>
    simpa [TrackRepository.add, TrackRepository.get_all, heapModify,
      mkTrackRepositoryDefault, List.set] using mem_dictValues_dictSet c t

/-- Witness for claim C9 at the module-load heap and a concrete track. -/
theorem track_repository_aliasing_witness :
    0 < moduleLoadHeap.cells.length ∧
      trackF ∈ TrackRepository.get_all mkTrackRepositoryDefault
        (TrackRepository.add mkTrackRepositoryDefault moduleLoadHeap trackF) :=
  ⟨by decide,
    track_repository_default_argument_aliasing moduleLoadHeap trackF (by decide)⟩

/-- Claim C5: `_build_detections` rebuilds every accumulated detection with
the new sub-track id substituted for the original track id and every other
field preserved in place. -/
theorem build_detections_substitutes_only_track_id (b : CutDomain.TrackBuilder)
    (tid : CutDomain.TrackId) (hid : b.trackId = some tid) :
    CutDomain.TrackBuilder.build_detections b =
      Except.ok (b.detections.map fun d => { d with trackId := tid }) := by
  unfold CutDomain.TrackBuilder.build_detections
  rw [hid]

/-- Witness for claim C5 on a concrete builder state. -/
theorem build_detections_witness :
    CutDomain.builderG.trackId = some ⟨"7_1"⟩ ∧
      CutDomain.TrackBuilder.build_detections CutDomain.builderG =
        Except.ok
          [⟨"car", 1/2, 0, 0, 0, 0, 1, 0, false, ⟨"7_1"⟩, "cam_video.mp4"⟩] :=
  ⟨rfl,
    (build_detections_substitutes_only_track_id CutDomain.builderG ⟨"7_1"⟩
      rfl).trans (by rfl)⟩

/-- `assocGet` misses exactly the keys absent from the dict. -/
theorem assocGet_eq_none (k : String) (m : List (String × ℚ)) :
    assocGet k m = none ↔ k ∉ m.map Prod.fst := by
  induction m with
  | nil => simp [assocGet]
  | cons kv rest ih =>
    obtain ⟨k1, v1⟩ := kv
    by_cases h : k1 = k
    · simp [assocGet, h]
    · simp only [assocGet, if_neg h, List.map_cons, List.mem_cons, ih]
      constructor
      · rintro hk (rfl | hm)
        · exact h rfl
        · exact hk hm
      · intro hk hm
        exact hk (Or.inr hm)

/-- A successful `assocGet` returns an entry of the dict. -/
theorem assocGet_mem (k : String) (v : ℚ) (m : List (String × ℚ))
    (h : assocGet k m = some v) : (k, v) ∈ m := by
  induction m with
  | nil => cases h
  | cons kv rest ih =>
    obtain ⟨k1, v1⟩ := kv
    by_cases hk : k1 = k
    · subst hk
      have hv : v1 = v := by simpa [assocGet] using h
      subst hv
      exact List.mem_cons_self _ _
    · simp only [assocGet, if_neg hk] at h
      exact List.mem_cons_of_mem _ (ih h)

/-- `assocSet` never returns an empty dict. -/
theorem assocSet_ne_nil (k : String) (v : ℚ) (m : List (String × ℚ)) :
    assocSet k v m ≠ [] := by
  cases m with
  | nil => simp [assocSet]
  | cons kv rest =>
    obtain ⟨k1, v1⟩ := kv
    by_cases h : k1 = k <;> simp [assocSet, h]

/-- Setting an absent key appends the new entry. -/
theorem assocSet_of_not_mem (k : String) (v : ℚ) (m : List (String × ℚ))
    (h : k ∉ m.map Prod.fst) : assocSet k v m = m ++ [(k, v)] := by
  induction m with
  | nil => rfl
  | cons kv rest ih =>
    obtain ⟨k1, v1⟩ := kv
    simp only [List.map_cons, List.mem_cons, not_or] at h
    have hne : k1 ≠ k := fun he => h.1 he.symm
    simp [assocSet, hne, ih h.2]

/-- Setting a present key leaves the key list unchanged. -/
theorem keys_assocSet_of_mem (k : String) (v : ℚ) (m : List (String × ℚ))
    (h : k ∈ m.map Prod.fst) : (assocSet k v m).map Prod.fst = m.map Prod.fst := by
  induction m with
  | nil => simp at h
  | cons kv rest ih =>
    obtain ⟨k1, v1⟩ := kv
    by_cases hk : k1 = k
    · simp [assocSet, hk]
    · simp only [List.map_cons, List.mem_cons] at h
      rcases h with h | h
      · exact absurd h.symm hk
      · simp [assocSet, hk, ih h]

/-- In a dict with unique keys, every entry after `assocSet` is the new
entry or an untouched entry with a different key. -/
theorem mem_assocSet (k : String) (v : ℚ) (m : List (String × ℚ))
    (hnd : (m.map Prod.fst).Nodup) :
    ∀ kv ∈ assocSet k v m, kv = (k, v) ∨ (kv ∈ m ∧ kv.1 ≠ k) := by
  induction m with
  | nil =>
    intro kv hkv
    simp only [assocSet, List.mem_singleton] at hkv
    exact Or.inl hkv
  | cons e rest ih =>
    obtain ⟨k1, v1⟩ := e
    simp only [List.map_cons, List.nodup_cons] at hnd
    intro kv hkv
    by_cases hk : k1 = k
    · subst hk
      have hkv2 : kv = (k1, v) ∨ kv ∈ rest := by simpa [assocSet] using hkv
      rcases hkv2 with heq | hkv2
      · exact Or.inl heq
      · refine Or.inr ⟨List.mem_cons_of_mem _ hkv2, fun he => hnd.1 ?_⟩
        rw [← he]
        exact List.mem_map.2 ⟨kv, hkv2, rfl⟩
    · simp only [assocSet, if_neg hk, List.mem_cons] at hkv
      rcases hkv with rfl | hkv
      · exact Or.inr ⟨List.mem_cons_self _ _, hk⟩
      · rcases ih hnd.2 kv hkv with h | h
        · exact Or.inl h
        · exact Or.inr ⟨List.mem_cons_of_mem _ h.1, h.2⟩

/-- `assocSet` preserves key uniqueness. -/
theorem keys_nodup_assocSet (k : String) (v : ℚ) (m : List (String × ℚ))
    (hnd : (m.map Prod.fst).Nodup) :
    ((assocSet k v m).map Prod.fst).Nodup := by
  by_cases h : k ∈ m.map Prod.fst
  · rw [keys_assocSet_of_mem k v m h]; exact hnd
  · rw [assocSet_of_not_mem k v m h]
    simp only [List.map_append, List.map_cons, List.map_nil]
    refine List.Nodup.append hnd (List.nodup_singleton k) ?_
    intro x hx hxk
    rw [List.mem_singleton] at hxk
    subst hxk
    exact h hx

/-- `sumVal` distributes over append. -/
theorem sumVal_append (k : String) (p q : List (String × ℚ)) :
    sumVal k (p ++ q) = sumVal k p + sumVal k q := by
  simp [sumVal, List.filter_append]

/-- A key matching no pair collects sum zero. -/
theorem sumVal_eq_zero (k : String) (p : List (String × ℚ))
    (h : ∀ r ∈ p, r.1 ≠ k) : sumVal k p = 0 := by
  have : p.filter (fun r => r.1 = k) = [] := by
    rw [List.filter_eq_nil_iff]
    intro a ha
    simpa using h a ha
  simp [sumVal, this]

/-- `sumVal` on a singleton. -/
theorem sumVal_singleton (k : String) (qk : String) (qv : ℚ) :
    sumVal k [(qk, qv)] = if qk = k then qv else 0 := by
  by_cases h : qk = k <;> simp [sumVal, h]

/-- One classification step preserves the dict invariant: unique keys, each
entry holding the summed value its key collects over the processed prefix,
every processed label present as a key, and every key a processed label. -/
theorem classificationStep_inv (m p : List (String × ℚ)) (q : String × ℚ)
    (h1 : (m.map Prod.fst).Nodup)
    (h2 : ∀ kv ∈ m, kv.2 = sumVal kv.1 p)
    (h3 : ∀ r ∈ p, r.1 ∈ m.map Prod.fst)
    (h4 : ∀ kv ∈ m, kv.1 ∈ p.map Prod.fst) :
    ((classificationStep m q).map Prod.fst).Nodup ∧
      (∀ kv ∈ classificationStep m q, kv.2 = sumVal kv.1 (p ++ [q])) ∧
      (∀ r ∈ p ++ [q], r.1 ∈ (classificationStep m q).map Prod.fst) ∧
      (∀ kv ∈ classificationStep m q, kv.1 ∈ (p ++ [q]).map Prod.fst) := by
  obtain ⟨qk, qv⟩ := q
  cases hget : assocGet qk m with
  | none =>
    have hnotin : qk ∉ m.map Prod.fst := (assocGet_eq_none qk m).1 hget
    have hset : classificationStep m (qk, qv) = m ++ [(qk, qv)] := by
      simp only [classificationStep, hget]
      exact assocSet_of_not_mem qk qv m hnotin
    rw [hset]
    refine ⟨?_, ?_, ?_, ?_⟩
    · simp only [List.map_append, List.map_cons, List.map_nil]
      refine List.Nodup.append h1 (List.nodup_singleton qk) ?_
      intro x hx hxk
      rw [List.mem_singleton] at hxk
      subst hxk
      exact hnotin hx
    · intro kv hkv
      rw [List.mem_append, List.mem_singleton] at hkv
      rcases hkv with hkv | rfl
      · have hne : qk ≠ kv.1 := fun he =>
          hnotin (he ▸ List.mem_map.2 ⟨kv, hkv, rfl⟩)
        rw [sumVal_append, sumVal_singleton, if_neg hne, add_zero]
        exact h2 kv hkv
      · have hzero : sumVal qk p = 0 :=
          sumVal_eq_zero qk p fun r hr he => hnotin (he ▸ h3 r hr)
        rw [sumVal_append, sumVal_singleton, if_pos rfl, hzero, zero_add]
    · intro r hr
      rw [List.mem_append, List.mem_singleton] at hr
      rcases hr with hr | rfl
      · simp only [List.map_append, List.mem_append]
        exact Or.inl (h3 r hr)
      · simp
    · intro kv hkv
      rw [List.mem_append, List.mem_singleton] at hkv
      simp only [List.map_append, List.mem_append]
      rcases hkv with hkv | rfl
      · exact Or.inl (h4 kv hkv)
      · simp
  | some v =>
    have hmem : (qk, v) ∈ m := assocGet_mem qk v m hget
    have hval : v = sumVal qk p := h2 _ hmem
    have hkmem : qk ∈ m.map Prod.fst := List.mem_map.2 ⟨(qk, v), hmem, rfl⟩
    have hstep : classificationStep m (qk, qv) = assocSet qk (v + qv) m := by
      by_cases hv : v = 0
      · simp only [classificationStep, hget, hv, ne_eq, not_true_eq_false,
          if_false, zero_add]
      · simp only [classificationStep, hget, ne_eq, hv, not_false_eq_true, if_true]
    rw [hstep]
    have hkeys : (assocSet qk (v + qv) m).map Prod.fst = m.map Prod.fst :=
      keys_assocSet_of_mem qk (v + qv) m hkmem
    refine ⟨by rw [hkeys]; exact h1, ?_, ?_, ?_⟩
    · intro kv hkv
      rcases mem_assocSet qk (v + qv) m h1 kv hkv with rfl | ⟨hkv, hne⟩
      · rw [sumVal_append, sumVal_singleton, if_pos rfl, ← hval]
      · rw [sumVal_append, sumVal_singleton, if_neg (Ne.symm hne), add_zero]
        exact h2 kv hkv
    · intro r hr
      rw [List.mem_append, List.mem_singleton] at hr
      rw [hkeys]
      rcases hr with hr | rfl
      · exact h3 r hr
      · exact hkmem
    · intro kv hkv
      simp only [List.map_append, List.mem_append]
      rcases mem_assocSet qk (v + qv) m h1 kv hkv with rfl | ⟨hkv, -⟩
      · simp
      · exact Or.inl (h4 kv hkv)

/-- The classification fold preserves the dict invariant over any suffix of
remaining pairs. -/
theorem classificationFold_inv (suffix : List (String × ℚ)) :
    ∀ m p : List (String × ℚ),
      (m.map Prod.fst).Nodup →
      (∀ kv ∈ m, kv.2 = sumVal kv.1 p) →
      (∀ r ∈ p, r.1 ∈ m.map Prod.fst) →
      (∀ kv ∈ m, kv.1 ∈ p.map Prod.fst) →
      ((suffix.foldl classificationStep m).map Prod.fst).Nodup ∧
        (∀ kv ∈ suffix.foldl classificationStep m,
          kv.2 = sumVal kv.1 (p ++ suffix)) ∧
        (∀ r ∈ p ++ suffix,
          r.1 ∈ (suffix.foldl classificationStep m).map Prod.fst) ∧
        (∀ kv ∈ suffix.foldl classificationStep m,
          kv.1 ∈ (p ++ suffix).map Prod.fst) := by
  induction suffix with
  | nil =>
    intro m p h1 h2 h3 h4
    simp only [List.foldl_nil, List.append_nil]
    exact ⟨h1, h2, h3, h4⟩
  | cons q rest ih =>
    intro m p h1 h2 h3 h4
    obtain ⟨g1, g2, g3, g4⟩ := classificationStep_inv m p q h1 h2 h3 h4
    have := ih (classificationStep m q) (p ++ [q]) g1 g2 g3 g4
    simpa [List.append_assoc] using this

/-- A classification step never empties the dict. -/
theorem classificationStep_ne_nil (m : List (String × ℚ)) (q : String × ℚ) :
    classificationStep m q ≠ [] := by
  unfold classificationStep
  cases assocGet q.1 m with
  | none => exact assocSet_ne_nil _ _ _
  | some v =>
    by_cases hv : v = 0
    · simpa [hv] using assocSet_ne_nil q.1 q.2 m
    · simpa [hv] using assocSet_ne_nil q.1 (v + q.2) m

/-- The classification fold of a non-empty dict stays non-empty. -/
theorem classificationFold_ne_nil (suffix : List (String × ℚ)) :
    ∀ m : List (String × ℚ), m ≠ [] → suffix.foldl classificationStep m ≠ [] := by
  induction suffix with
  | nil => intro m h; simpa using h
  | cons q rest ih =>
    intro m _
    exact ih (classificationStep m q) (classificationStep_ne_nil m q)

/-- Python's first-maximum scan returns a key of the dict whose value is
greater or equal to every value in the dict. -/
theorem pyMaxKeyAux_spec (rest : List (String × ℚ)) :
    ∀ (bk : String) (bv : ℚ),
      ∃ p ∈ (bk, bv) :: rest,
        p.1 = pyMaxKeyAux bk bv rest ∧ ∀ q ∈ (bk, bv) :: rest, q.2 ≤ p.2 := by
  induction rest with
  | nil =>
    intro bk bv
    refine ⟨(bk, bv), List.mem_singleton.2 rfl, rfl, ?_⟩
    intro q hq
    rw [List.mem_singleton] at hq
    subst hq
    exact le_refl _
  | cons r rest ih =>
    intro bk bv
    obtain ⟨rk, rv⟩ := r
    by_cases h : bv < rv
    · obtain ⟨p, hp, he, hge⟩ := ih rk rv
      refine ⟨p, List.mem_cons_of_mem _ hp, ?_, ?_⟩
      · simpa [pyMaxKeyAux, h] using he
      · intro q hq
        rw [List.mem_cons] at hq
        rcases hq with rfl | hq
        · exact le_trans (le_of_lt h) (hge (rk, rv) (List.mem_cons_self _ _))
        · exact hge q hq
    · obtain ⟨p, hp, he, hge⟩ := ih bk bv
      have hpmem : p ∈ (bk, bv) :: (rk, rv) :: rest := by
        rw [List.mem_cons] at hp
        rcases hp with rfl | hp
        · exact List.mem_cons_self _ _
        · exact List.mem_cons_of_mem _ (List.mem_cons_of_mem _ hp)
      refine ⟨p, hpmem, ?_, ?_⟩
      · simpa [pyMaxKeyAux, h] using he
      · intro q hq
        rw [List.mem_cons] at hq
        rcases hq with rfl | hq
        · exact hge (bk, bv) (List.mem_cons_self _ _)
        rw [List.mem_cons] at hq
        rcases hq with rfl | hq
        · exact le_trans (le_of_not_lt h) (hge (bk, bv) (List.mem_cons_self _ _))
        · exact hge q (List.mem_cons_of_mem _ hq)

/-- The summed confidence of a label over detections equals the summed value
of that key over the projected (label, confidence) pairs. -/
theorem sumConf_eq_sumVal (k : String) (ds : List Detection) :
    sumConf k ds = sumVal k (ds.map fun d => (d.classification, d.confidence)) := by
  induction ds with
  | nil => rfl
  | cons d rest ih =>
    by_cases h : d.classification = k
    · simp [sumConf, sumVal, List.filter_cons, h] at *
      exact ih
    · simp [sumConf, sumVal, List.filter_cons, h] at *
      exact ih

/-- Claim C6: on every non-empty detection list with confidences in [0,1],
the max-confidence calculator returns a label appearing in the list whose
summed confidence is maximal among all labels appearing in the list. -/
theorem calculate_max_confidence_sum (ds : List Detection) (hne : ds ≠ [])
    (_hconf : ∀ d ∈ ds, 0 ≤ d.confidence ∧ d.confidence ≤ 1) :
    ∃ c, calculate ds = some c ∧ (∃ d ∈ ds, d.classification = c) ∧
      ∀ d ∈ ds, sumConf d.classification ds ≤ sumConf c ds := by
  obtain ⟨i1, i2, i3, i4⟩ :=
    classificationFold_inv (ds.map fun d => (d.classification, d.confidence)) [] []
      (by simp) (by simp) (by simp) (by simp)
  simp only [List.nil_append] at i2 i3 i4
  have hpne : (ds.map fun d => (d.classification, d.confidence)) ≠ [] := by
    simpa using hne
  have hfne :
      (ds.map fun d => (d.classification, d.confidence)).foldl
        classificationStep [] ≠ [] := by
    cases hds : ds.map fun d => (d.classification, d.confidence) with
    | nil => exact absurd hds hpne
    | cons q rest =>
      rw [List.foldl_cons]
      exact classificationFold_ne_nil rest _ (classificationStep_ne_nil [] q)
  cases hm : (ds.map fun d => (d.classification, d.confidence)).foldl
      classificationStep [] with
  | nil => exact absurd hm hfne
  | cons kv restm =>
    obtain ⟨bk, bv⟩ := kv
    have hcalc : calculate ds = some (pyMaxKeyAux bk bv restm) := by
      simp only [calculate, pyClassify, hm]
    obtain ⟨pmax, hpmem, hpeq, hpge⟩ := pyMaxKeyAux_spec restm bk bv
    refine ⟨pyMaxKeyAux bk bv restm, hcalc, ?_, ?_⟩
    · have hlbl : pmax.1 ∈
          (ds.map fun d => (d.classification, d.confidence)).map Prod.fst := by
        refine i4 pmax ?_
        rw [hm]
        exact hpmem
      rw [List.map_map] at hlbl
      obtain ⟨d, hd, hdc⟩ := List.mem_map.1 hlbl
      exact ⟨d, hd, by rw [← hpeq]; exact hdc⟩
    · intro d hd
      have hdl : d.classification ∈
          ((ds.map fun e => (e.classification, e.confidence)).foldl
            classificationStep []).map Prod.fst :=
        i3 (d.classification, d.confidence) (List.mem_map.2 ⟨d, hd, rfl⟩)
      rw [hm] at hdl
      obtain ⟨kv2, hkv2mem, hkv2⟩ := List.mem_map.1 hdl
      have hv2 : kv2.2 = sumVal kv2.1
          (ds.map fun e => (e.classification, e.confidence)) := by
        refine i2 kv2 ?_
        rw [hm]
        exact hkv2mem
      have hvmax : pmax.2 = sumVal pmax.1
          (ds.map fun e => (e.classification, e.confidence)) := by
        refine i2 pmax ?_
        rw [hm]
        exact hpmem
      rw [sumConf_eq_sumVal, sumConf_eq_sumVal, ← hpeq, ← hvmax, ← hkv2, ← hv2]
      exact hpge kv2 hkv2mem

/-- Witness for claim C6 on a concrete two-label detection list. -/
theorem calculate_witness :
    [detA1, detA2, detH] ≠ [] ∧
      (∀ d ∈ [detA1, detA2, detH], 0 ≤ d.confidence ∧ d.confidence ≤ 1) ∧
      ∃ c, calculate [detA1, detA2, detH] = some c ∧
        (∃ d ∈ [detA1, detA2, detH], d.classification = c) ∧
        ∀ d ∈ [detA1, detA2, detH],
          sumConf d.classification [detA1, detA2, detH] ≤
            sumConf c [detA1, detA2, detH] :=
  ⟨by simp, by norm_num [List.forall_mem_cons, detA1, detA2, detH],
    calculate_max_confidence_sum [detA1, detA2, detH] (by simp)
      (by norm_num [List.forall_mem_cons, detA1, detA2, detH])⟩

/-- `consecutivePairs` peels one pair off a list with two or more heads. -/
theorem consecutivePairs_cons_cons {α : Type} (a b : α) (l : List α) :
    consecutivePairs (a :: b :: l) = (a, b) :: consecutivePairs (b :: l) := rfl

/-- The smallest-segments pair walk emits exactly one event per consecutive
detection pair whose two-point segment intersects the section geometry,
stamped at the later detection with the later sampled point as event
coordinate and the earlier-to-later difference as direction vector, in
detection order. -/
theorem smallestSegmentsWalk_eq (impl : Line → Line → Bool) (geom : Line)
    (off : RelativeOffsetCoordinate) (sid : String) (et : EventType) (rut : String) :
    ∀ (ds : List Detection) (b : SectionEventBuilder),
      b.sectionId = some sid → b.eventType = some et → b.roadUserType = some rut →
      smallestSegmentsWalk impl geom off b ds =
        some ((consecutivePairs ds).filterMap fun p =>
          if impl geom ⟨[selectCoordinateInDetection p.1 off,
              selectCoordinateInDetection p.2 off]⟩ then
            some ⟨p.2.trackId.id, rut, p.2.occurrence, p.2.frame, some sid,
              selectCoordinateInDetection p.2 off, et,
              calculateDirectionVector (selectCoordinateInDetection p.1 off)
                (selectCoordinateInDetection p.2 off), p.2.inputFilePath⟩
          else none) := by
  intro ds
  induction ds with
  | nil => intro b _ _ _; rfl
  | cons c tl ih =>
    cases tl with
    | nil => intro b _ _ _; rfl
    | cons n rest =>
      intro b h1 h2 h3
      rw [consecutivePairs_cons_cons, List.filterMap_cons]
      by_cases hint : impl geom ⟨[selectCoordinateInDetection c off,
          selectCoordinateInDetection n off]⟩ = true
      · have hb1 :
            ((b.add_direction_vector
              (calculateDirectionVector (selectCoordinateInDetection c off)
                (selectCoordinateInDetection n off))).add_event_coordinate
                  (selectCoordinateInDetection n off).x
                  (selectCoordinateInDetection n off).y).create_event n =
              some ⟨n.trackId.id, rut, n.occurrence, n.frame, some sid,
                selectCoordinateInDetection n off, et,
                calculateDirectionVector (selectCoordinateInDetection c off)
                  (selectCoordinateInDetection n off), n.inputFilePath⟩ := by
          simp [SectionEventBuilder.create_event,
            SectionEventBuilder.add_direction_vector,
            SectionEventBuilder.add_event_coordinate, h1, h2, h3]
        simp only [smallestSegmentsWalk, hint, if_true, hb1]
        rw [ih _ (by simpa [SectionEventBuilder.add_direction_vector,
              SectionEventBuilder.add_event_coordinate] using h1)
            (by simpa [SectionEventBuilder.add_direction_vector,
              SectionEventBuilder.add_event_coordinate] using h2)
            (by simpa [SectionEventBuilder.add_direction_vector,
              SectionEventBuilder.add_event_coordinate] using h3)]
        simp [hint]
      · simp only [smallestSegmentsWalk, hint, if_false]
        rw [ih b h1 h2 h3]
        simp [hint]

/-- Claim C1: for a track of at least two detections against a line section,
when the full sampled polyline intersects the section line, the
smallest-segments strategy returns exactly one event per consecutive
detection pair whose two-point segment intersects the section line, each
placed at the later detection with event coordinate the later sampled point
and direction vector (later - earlier), in detection order. -/
theorem smallest_segments_intersect_events (impl : Line → Line → Bool)
    (ls : LineSection) (track : Track) (b : SectionEventBuilder)
    (sid : String) (et : EventType) (off : RelativeOffsetCoordinate)
    (hsid : b.sectionId = some sid) (het : b.eventType = some et)
    (hoff : List.lookup EventType.sectionEnter ls.relativeOffsetCoordinates =
      some off)
    (_hlen : 2 ≤ track.detections.length)
    (hfull : impl ⟨ls.get_coordinates⟩ (trackGeometry track off) = true) :
    SimpleIntersectBySmallestTrackSegments.intersect impl ls track b =
      some ((consecutivePairs track.detections).filterMap fun p =>
        if impl ⟨ls.get_coordinates⟩ ⟨[selectCoordinateInDetection p.1 off,
            selectCoordinateInDetection p.2 off]⟩ then
          some ⟨p.2.trackId.id, track.classification, p.2.occurrence, p.2.frame,
            some sid, selectCoordinateInDetection p.2 off, et,
            calculateDirectionVector (selectCoordinateInDetection p.1 off)
              (selectCoordinateInDetection p.2 off), p.2.inputFilePath⟩
        else none) := by
  unfold SimpleIntersectBySmallestTrackSegments.intersect
  simp only [hoff, hfull, Bool.not_true, Bool.false_eq_true, if_false]
  exact smallestSegmentsWalk_eq impl ⟨ls.get_coordinates⟩ off sid et
    track.classification track.detections
    (b.add_road_user_type track.classification)
    (by simpa [SectionEventBuilder.add_road_user_type] using hsid)
    (by simpa [SectionEventBuilder.add_road_user_type] using het)
    (by simp [SectionEventBuilder.add_road_user_type])

/-- Witness for claim C1 on the spec's concrete scenario: detections sampled
at (0,5) and (10,5) against the vertical line section from (5,0) to (5,10)
yield exactly one SECTION_ENTER event at the second detection with
direction vector (10, 0). -/
theorem smallest_segments_witness :
    builderA.sectionId = some "N" ∧
      builderA.eventType = some EventType.sectionEnter ∧
      List.lookup EventType.sectionEnter lineSectionA.relativeOffsetCoordinates =
        some ⟨0, 0⟩ ∧
      2 ≤ trackA.detections.length ∧
      lineIntersectsLine ⟨lineSectionA.get_coordinates⟩
        (trackGeometry trackA ⟨0, 0⟩) = true ∧
      SimpleIntersectBySmallestTrackSegments.intersect lineIntersectsLine
        lineSectionA trackA builderA =
        some [⟨1, "car", 1, 2, some "N", ⟨10, 5⟩, EventType.sectionEnter,
          (10, 0), "myhostname_file.otdet"⟩] := by
  have hfull : lineIntersectsLine ⟨lineSectionA.get_coordinates⟩
      (trackGeometry trackA ⟨0, 0⟩) = true := by
    norm_num [lineIntersectsLine, segmentsOf, trackGeometry,
      selectCoordinateInDetection, trackA, detA1, detA2, lineSectionA,
      LineSection.get_coordinates, segmentsIntersect, orient, onSegment]
  refine ⟨rfl, rfl, rfl, by norm_num [trackA], hfull, ?_⟩
  rw [smallest_segments_intersect_events lineIntersectsLine lineSectionA trackA
    builderA "N" EventType.sectionEnter ⟨0, 0⟩ rfl rfl rfl
    (by norm_num [trackA]) hfull]
  norm_num [trackA, detA1, detA2, lineSectionA, LineSection.get_coordinates,
    consecutivePairs, selectCoordinateInDetection, calculateDirectionVector,
    lineIntersectsLine, segmentsOf, segmentsIntersect, orient, onSegment,
    List.filterMap_cons, List.filterMap_nil]

/-- The area state-flip loop emits exactly one event per consecutive sampled
pair whose inside/outside states differ — typed ENTER when entering and
LEAVE when exiting, at the detection where the flip is observed, with
direction vector from the previous to the current sampled point — and none
where the state does not change. -/
theorem areaPointsLoop_eq (inside : Coordinate → Polygon → Bool) (poly : Polygon)
    (off : RelativeOffsetCoordinate) (sid rut : String) :
    ∀ (ds : List Detection) (prevD : Detection) (b : SectionEventBuilder),
      b.sectionId = some sid → b.roadUserType = some rut →
      areaPointsLoop inside poly off b
        (inside (selectCoordinateInDetection prevD off) poly)
        (selectCoordinateInDetection prevD off) ds =
        some ((consecutivePairs (prevD :: ds)).filterMap fun p =>
          if inside (selectCoordinateInDetection p.1 off) poly =
              inside (selectCoordinateInDetection p.2 off) poly then none
          else
            some ⟨p.2.trackId.id, rut, p.2.occurrence, p.2.frame, some sid,
              selectCoordinateInDetection p.2 off,
              (if inside (selectCoordinateInDetection p.2 off) poly then
                EventType.sectionEnter
              else EventType.sectionLeave),
              calculateDirectionVector (selectCoordinateInDetection p.1 off)
                (selectCoordinateInDetection p.2 off), p.2.inputFilePath⟩) := by
  intro ds
  induction ds with
  | nil => intro prevD b _ _; rfl
  | cons d rest ih =>
    intro prevD b h1 h2
    rw [consecutivePairs_cons_cons, List.filterMap_cons]
    by_cases hflip : inside (selectCoordinateInDetection prevD off) poly =
        inside (selectCoordinateInDetection d off) poly
    · simp only [areaPointsLoop, hflip, if_true, if_pos rfl]
      exact ih d b h1 h2
    · have hb1 : ((((b.add_direction_vector
          (calculateDirectionVector (selectCoordinateInDetection prevD off)
            (selectCoordinateInDetection d off))).add_event_coordinate
              (selectCoordinateInDetection d off).x
              (selectCoordinateInDetection d off).y).add_event_type
                (if inside (selectCoordinateInDetection d off) poly then
                  EventType.sectionEnter
                else EventType.sectionLeave))).create_event d =
          some ⟨d.trackId.id, rut, d.occurrence, d.frame, some sid,
            selectCoordinateInDetection d off,
            (if inside (selectCoordinateInDetection d off) poly then
              EventType.sectionEnter
            else EventType.sectionLeave),
            calculateDirectionVector (selectCoordinateInDetection prevD off)
              (selectCoordinateInDetection d off), d.inputFilePath⟩ := by
        simp [SectionEventBuilder.create_event,
          SectionEventBuilder.add_direction_vector,
          SectionEventBuilder.add_event_coordinate,
          SectionEventBuilder.add_event_type, h1, h2]
      simp only [areaPointsLoop, hflip, if_false, hb1]
      rw [ih d _ (by simpa [SectionEventBuilder.add_direction_vector,
            SectionEventBuilder.add_event_coordinate,
            SectionEventBuilder.add_event_type] using h1)
          (by simpa [SectionEventBuilder.add_direction_vector,
            SectionEventBuilder.add_event_coordinate,
            SectionEventBuilder.add_event_type] using h2)]
      simp [hflip]

/-- Claim C2: the area-points strategy emits a synthetic SECTION_ENTER at
the first detection iff the first sampled point is inside the polygon
(direction vector from point 0 to point 1), and thereafter exactly one
event per inside/outside state flip — ENTER when entering, LEAVE when
exiting, at the flip detection, direction vector from the previous to the
current sampled point — and no event where the state does not change. -/
theorem area_points_intersect_events (inside : Coordinate → Polygon → Bool)
    (area : Area) (track : Track) (b : SectionEventBuilder) (sid : String)
    (off : RelativeOffsetCoordinate) (d0 d1 : Detection)
    (drest : List Detection) (hsid : b.sectionId = some sid)
    (hoff : List.lookup EventType.sectionEnter area.relativeOffsetCoordinates =
      some off)
    (hdet : track.detections = d0 :: d1 :: drest) :
    SimpleIntersectAreaByTrackPoints.intersect inside area track b =
      some ((if inside (selectCoordinateInDetection d0 off) ⟨area.coordinates⟩ then
          [⟨d0.trackId.id, d0.classification, d0.occurrence, d0.frame, some sid,
            selectCoordinateInDetection d0 off, EventType.sectionEnter,
            calculateDirectionVector (selectCoordinateInDetection d0 off)
              (selectCoordinateInDetection d1 off), d0.inputFilePath⟩]
        else []) ++
        (consecutivePairs (d0 :: d1 :: drest)).filterMap fun p =>
          if inside (selectCoordinateInDetection p.1 off) ⟨area.coordinates⟩ =
              inside (selectCoordinateInDetection p.2 off) ⟨area.coordinates⟩ then
            none
          else
            some ⟨p.2.trackId.id,
              (if inside (selectCoordinateInDetection d0 off) ⟨area.coordinates⟩
                then d0.classification else track.classification),
              p.2.occurrence, p.2.frame, some sid,
              selectCoordinateInDetection p.2 off,
              (if inside (selectCoordinateInDetection p.2 off)
                  ⟨area.coordinates⟩ then
                EventType.sectionEnter
              else EventType.sectionLeave),
              calculateDirectionVector (selectCoordinateInDetection p.1 off)
                (selectCoordinateInDetection p.2 off), p.2.inputFilePath⟩) := by
  unfold SimpleIntersectAreaByTrackPoints.intersect
  simp only [hoff, hdet]
  by_cases hin : inside (selectCoordinateInDetection d0 off)
      ⟨area.coordinates⟩ = true
  · have hb1 : (((((b.add_road_user_type track.classification).add_event_type
        EventType.sectionEnter).add_road_user_type
          d0.classification).add_direction_vector
            (calculateDirectionVector (selectCoordinateInDetection d0 off)
              (selectCoordinateInDetection d1 off))).add_event_coordinate
                (selectCoordinateInDetection d0 off).x
                (selectCoordinateInDetection d0 off).y).create_event d0 =
        some ⟨d0.trackId.id, d0.classification, d0.occurrence, d0.frame,
          some sid, selectCoordinateInDetection d0 off, EventType.sectionEnter,
          calculateDirectionVector (selectCoordinateInDetection d0 off)
            (selectCoordinateInDetection d1 off), d0.inputFilePath⟩ := by
      simp [SectionEventBuilder.create_event,
        SectionEventBuilder.add_direction_vector,
        SectionEventBuilder.add_event_coordinate,
        SectionEventBuilder.add_event_type,
        SectionEventBuilder.add_road_user_type, hsid]
    have hloop := areaPointsLoop_eq inside ⟨area.coordinates⟩ off sid
      d0.classification (d1 :: drest) d0
      (((((b.add_road_user_type track.classification).add_event_type
        EventType.sectionEnter).add_road_user_type
          d0.classification).add_direction_vector
            (calculateDirectionVector (selectCoordinateInDetection d0 off)
              (selectCoordinateInDetection d1 off))).add_event_coordinate
                (selectCoordinateInDetection d0 off).x
                (selectCoordinateInDetection d0 off).y)
      (by simpa [SectionEventBuilder.add_direction_vector,
        SectionEventBuilder.add_event_coordinate,
        SectionEventBuilder.add_event_type,
        SectionEventBuilder.add_road_user_type] using hsid)
      (by simp [SectionEventBuilder.add_direction_vector,
        SectionEventBuilder.add_event_coordinate,
        SectionEventBuilder.add_event_type,
        SectionEventBuilder.add_road_user_type])
    rw [hin] at hloop
    simp only [hin, if_true, hb1, hloop, Option.map_some']
  · have hin2 : inside (selectCoordinateInDetection d0 off)
        ⟨area.coordinates⟩ = false := Bool.eq_false_iff.mpr hin
    have hloop := areaPointsLoop_eq inside ⟨area.coordinates⟩ off sid
      track.classification (d1 :: drest) d0
      (b.add_road_user_type track.classification)
      (by simpa [SectionEventBuilder.add_road_user_type] using hsid)
      (by simp [SectionEventBuilder.add_road_user_type])
    rw [hin2] at hloop
    simp only [hin2, Bool.false_eq_true, if_false, hloop, Option.map_some']

/-- Witness for claim C2 on the spec's concrete scenario: a track entering
the square area at (5,5) after starting at (-5,5) and leaving to (15,5)
yields exactly two events, ENTER then LEAVE, in occurrence order. -/
theorem area_points_witness :
    builderB.sectionId = some "A" ∧
      List.lookup EventType.sectionEnter areaB.relativeOffsetCoordinates =
        some ⟨0, 0⟩ ∧
      trackB.detections = [detB0, detB1, detB2] ∧
      SimpleIntersectAreaByTrackPoints.intersect pointInPolygon areaB trackB
        builderB =
        some [⟨2, "car", 1, 2, some "A", ⟨5, 5⟩, EventType.sectionEnter,
            (10, 0), "cam_video.mp4"⟩,
          ⟨2, "car", 2, 3, some "A", ⟨15, 5⟩, EventType.sectionLeave,
            (10, 0), "cam_video.mp4"⟩] := by
  refine ⟨rfl, rfl, rfl, ?_⟩
  rw [area_points_intersect_events pointInPolygon areaB trackB builderB "A"
    ⟨0, 0⟩ detB0 detB1 [detB2] rfl rfl rfl]
  norm_num [trackB, detB0, detB1, detB2, areaB, consecutivePairs,
    selectCoordinateInDetection, calculateDirectionVector, pointInPolygon,
    edgeCrossesRay, List.filterMap_cons, List.filterMap_nil]

/-- Shifting the splitting-loop accumulators by one consumed sub-line moves
the computed detection index one sub-line further. -/
theorem splitIdx_shift (cum n : ℕ) (sl : Line) (rest : List Line) (j : ℕ) :
    splitIdx (cum + sl.coordinates.length) (n + 1) rest j =
      splitIdx cum n (sl :: rest) (j + 1) := by
  simp only [splitIdx, List.take_succ_cons, List.map_cons, List.sum_cons]
  push_cast
  ring

/-- The splitting-loop index at the first processed sub-line. -/
theorem splitIdx_zero (cum n : ℕ) (subLines : List Line) :
    splitIdx cum n subLines 0 = (cum : ℤ) - 2 * (n : ℤ) + 1 := by
  simp [splitIdx]

/-- The splitting-strategy event loop produces exactly one event per
remaining sub-line, the j-th stamped at the detection index the cumulative
count arithmetic selects, provided every such index lands inside the
detection list. -/
theorem splittingLoop_eq (trackGeom : Line) (detections : List Detection)
    (sid : String) (et : EventType) (rut : String) :
    ∀ (subLines : List Line) (b : SectionEventBuilder) (cum n : ℕ),
      b.sectionId = some sid → b.eventType = some et →
      b.roadUserType = some rut →
      (∀ j, j < subLines.length →
        (pyGet detections (splitIdx cum n subLines j)).isSome ∧
          (pyGet trackGeom.coordinates (splitIdx cum n subLines j)).isSome ∧
          (pyGet trackGeom.coordinates
            (splitIdx cum n subLines j - 1)).isSome) →
      splittingLoop b trackGeom detections cum n subLines =
        some ((List.range subLines.length).map fun j =>
          splitEvent trackGeom detections sid et rut
            (splitIdx cum n subLines j)) := by
  intro subLines
  induction subLines with
  | nil => intro b cum n _ _ _ _; rfl
  | cons sl rest ih =>
    intro b cum n h1 h2 h3 hidx
    obtain ⟨hd0, hc0, hp0⟩ := hidx 0 (Nat.succ_pos _)
    rw [splitIdx_zero] at hd0 hc0 hp0
    obtain ⟨d, hd⟩ := Option.isSome_iff_exists.1 hd0
    obtain ⟨c, hc⟩ := Option.isSome_iff_exists.1 hc0
    obtain ⟨p, hp⟩ := Option.isSome_iff_exists.1 hp0
    have hcreate : (((b.add_direction_vector
        (calculateDirectionVector p c)).add_event_coordinate c.x
          c.y).create_event d) =
        some ⟨d.trackId.id, rut, d.occurrence, d.frame, some sid, c, et,
          calculateDirectionVector p c, d.inputFilePath⟩ := by
      simp [SectionEventBuilder.create_event,
        SectionEventBuilder.add_direction_vector,
        SectionEventBuilder.add_event_coordinate, h1, h2, h3]
    have hrec := ih ((b.add_direction_vector
        (calculateDirectionVector p c)).add_event_coordinate c.x c.y)
      (cum + sl.coordinates.length) (n + 1)
      (by simpa [SectionEventBuilder.add_direction_vector,
        SectionEventBuilder.add_event_coordinate] using h1)
      (by simpa [SectionEventBuilder.add_direction_vector,
        SectionEventBuilder.add_event_coordinate] using h2)
      (by simpa [SectionEventBuilder.add_direction_vector,
        SectionEventBuilder.add_event_coordinate] using h3)
      (by
        intro j hj
        rw [splitIdx_shift]
        exact hidx (j + 1) (Nat.succ_lt_succ hj))
    simp only [splittingLoop, hd, hc, hp, hcreate, hrec, Option.map_some']
    have hp2 : pyGet trackGeom.coordinates ((cum : ℤ) - 2 * (n : ℤ)) = some p := by
      rw [show (cum : ℤ) - 2 * (n : ℤ) = (cum : ℤ) - 2 * (n : ℤ) + 1 - 1 by ring]
      exact hp
    have hev0 : splitEvent trackGeom detections sid et rut
        (splitIdx cum n (sl :: rest) 0) =
        ⟨d.trackId.id, rut, d.occurrence, d.frame, some sid, c, et,
          calculateDirectionVector p c, d.inputFilePath⟩ := by
      rw [splitIdx_zero]
      simp [splitEvent, hd, hc, hp, hp2]
    rw [List.length_cons, List.range_succ_eq_map, List.map_cons, hev0,
      List.map_map]
    refine congrArg some (congrArg _ (List.map_congr_left ?_))
    intro j _
    simp only [Function.comp_apply, splitIdx_shift]

/-- The claim's index convention agrees with the loop accumulators: the
(j+1)-th interior split point's detection index is the cumulative
coordinate count of the first j+1 sub-lines minus 2(j+1) plus 1. -/
theorem detIdx_eq_splitIdx (first : Line) (rest : List Line) (j : ℕ) :
    detIdx (first :: rest) (j + 1) =
      splitIdx first.coordinates.length 1 rest j := by
  simp only [detIdx, splitIdx, List.take_succ_cons, List.map_cons,
    List.sum_cons]
  push_cast
  ring

/-- Claim C4: when the split of the sampled track polyline by the section
line returns sub-lines, the splitting strategy produces exactly one event
per interior split point, the n-th stamped at the detection whose index is
the cumulative coordinate count of the first n sub-lines minus 2n plus 1,
with direction vector from the sampled coordinate before that index to the
one at it; when the split returns nothing, no events are produced. -/
theorem splitting_line_intersect_events
    (split : Line → Line → Option (List Line)) (ls : LineSection)
    (track : Track) (b : SectionEventBuilder) (sid : String) (et : EventType)
    (off : RelativeOffsetCoordinate) (hsid : b.sectionId = some sid)
    (het : b.eventType = some et)
    (hoff : List.lookup et ls.relativeOffsetCoordinates = some off) :
    (split (trackGeometry track off) ⟨ls.get_coordinates⟩ = none →
      SimpleIntersectBySplittingTrackLine.intersect split ls track b =
        some []) ∧
      ∀ first rest,
        split (trackGeometry track off) ⟨ls.get_coordinates⟩ =
          some (first :: rest) →
        (∀ j, j < rest.length →
          (pyGet track.detections (detIdx (first :: rest) (j + 1))).isSome ∧
            (pyGet (trackGeometry track off).coordinates
              (detIdx (first :: rest) (j + 1))).isSome ∧
            (pyGet (trackGeometry track off).coordinates
              (detIdx (first :: rest) (j + 1) - 1)).isSome) →
        SimpleIntersectBySplittingTrackLine.intersect split ls track b =
          some ((List.range rest.length).map fun j =>
            splitEvent (trackGeometry track off) track.detections sid et
              track.classification (detIdx (first :: rest) (j + 1))) := by
  constructor
  · intro hnone
    unfold SimpleIntersectBySplittingTrackLine.intersect
    simp only [het, hoff, hnone]
  · intro first rest hsplit hidx
    unfold SimpleIntersectBySplittingTrackLine.intersect
    simp only [het, hoff, hsplit]
    have hloop := splittingLoop_eq (trackGeometry track off) track.detections
      sid et track.classification rest
      (b.add_road_user_type track.classification) first.coordinates.length 1
      (by simpa [SectionEventBuilder.add_road_user_type] using hsid)
      (by simpa [SectionEventBuilder.add_road_user_type] using het)
      (by simp [SectionEventBuilder.add_road_user_type])
      (by
        intro j hj
        rw [← detIdx_eq_splitIdx]
        exact hidx j hj)
    rw [hloop]
    refine congrArg some (List.map_congr_left ?_)
    intro j _
    rw [detIdx_eq_splitIdx]

/-- Witness for claim C4: the track sampled at (0,5), (10,5), (20,5) split
into two sub-lines at (5,5) yields exactly one event, stamped at detection
index 2 - 2x1 + 1 = 1 with direction vector (10, 0). -/
theorem splitting_line_witness :
    builderA.sectionId = some "N" ∧
      builderA.eventType = some EventType.sectionEnter ∧
      List.lookup EventType.sectionEnter lineSectionA.relativeOffsetCoordinates =
        some ⟨0, 0⟩ ∧
      splitC (trackGeometry trackC ⟨0, 0⟩) ⟨lineSectionA.get_coordinates⟩ =
        some [⟨[⟨0, 5⟩, ⟨5, 5⟩]⟩, ⟨[⟨5, 5⟩, ⟨10, 5⟩, ⟨20, 5⟩]⟩] ∧
      SimpleIntersectBySplittingTrackLine.intersect splitC lineSectionA trackC
        builderA =
        some [⟨1, "car", 1, 2, some "N", ⟨10, 5⟩, EventType.sectionEnter,
          (10, 0), "myhostname_file.otdet"⟩] := by
  refine ⟨rfl, rfl, rfl, rfl, ?_⟩
  rw [(splitting_line_intersect_events splitC lineSectionA trackC builderA "N"
      EventType.sectionEnter ⟨0, 0⟩ rfl rfl rfl).2
    ⟨[⟨0, 5⟩, ⟨5, 5⟩]⟩ [⟨[⟨5, 5⟩, ⟨10, 5⟩, ⟨20, 5⟩]⟩] rfl ?hidx]
  case hidx =>
    intro j hj
    have hj0 : j = 0 := by
      simpa [Nat.lt_one_iff] using hj
    subst hj0
    exact ⟨rfl, rfl, rfl⟩
  simp only [List.length_cons, List.length_nil, List.range_succ,
    List.range_zero, List.nil_append, List.map_cons, List.map_nil, splitEvent]
  rw [show detIdx [⟨[⟨0, 5⟩, ⟨5, 5⟩]⟩, ⟨[⟨5, 5⟩, ⟨10, 5⟩, ⟨20, 5⟩]⟩] (0 + 1) =
    1 from by decide]
  rw [show pyGet trackC.detections 1 = some detA2 from rfl,
    show pyGet (trackGeometry trackC ⟨0, 0⟩).coordinates 1 =
      some (selectCoordinateInDetection detA2 ⟨0, 0⟩) from rfl,
    show pyGet (trackGeometry trackC ⟨0, 0⟩).coordinates (1 - 1) =
      some (selectCoordinateInDetection detA1 ⟨0, 0⟩) from rfl]
  norm_num [selectCoordinateInDetection, calculateDirectionVector,
    detA1, detA2, trackC]

/-- Sortedness by occurrence splits over append. -/
theorem cut_sorted_append (l1 l2 : List CutDomain.Detection)
    (h : CutDomain.isSortedByOccurrence (l1 ++ l2) = true) :
    CutDomain.isSortedByOccurrence l1 = true ∧
      CutDomain.isSortedByOccurrence l2 = true := by
  simp only [CutDomain.isSortedByOccurrence, decide_eq_true_eq] at h ⊢
  rw [List.chain'_append] at h
  exact ⟨h.1, h.2.1⟩

/-- Substituting the track id preserves sortedness by occurrence. -/
theorem cut_sorted_retag (tid : CutDomain.TrackId) (l : List CutDomain.Detection) :
    CutDomain.isSortedByOccurrence (l.map (CutDomain.retag tid)) =
      CutDomain.isSortedByOccurrence l := by
  simp only [CutDomain.isSortedByOccurrence]
  exact decide_eq_decide.mpr (by rw [List.chain'_map]; simp [CutDomain.retag])

/-- The max-confidence calculator succeeds on every non-empty pair list. -/
theorem pyClassify_isSome_of_ne_nil (pairs : List (String × ℚ))
    (h : pairs ≠ []) : ∃ c, pyClassify pairs = some c := by
  unfold pyClassify
  cases hm : pairs.foldl classificationStep [] with
  | nil =>
    cases pairs with
    | nil => exact absurd rfl h
    | cons q rest =>
      rw [List.foldl_cons] at hm
      exact absurd hm
        (classificationFold_ne_nil rest _ (classificationStep_ne_nil [] q))
  | cons kv restm =>
    obtain ⟨k, v⟩ := kv
    exact ⟨pyMaxKeyAux k v restm, rfl⟩

/-- `_build_detections` as id substitution (helper form). -/
theorem cut_build_detections_eq (b : CutDomain.TrackBuilder)
    (tid : CutDomain.TrackId) (hid : b.trackId = some tid) :
    b.build_detections = Except.ok (b.detections.map (CutDomain.retag tid)) := by
  unfold CutDomain.TrackBuilder.build_detections
  rw [hid]
  rfl

/-- A builder with an id, at least two accumulated detections, and sorted
occurrences builds successfully: the track carries the substituted-id
detections and the max-confidence classification computed over exactly
those detections, and the builder resets. -/
theorem cut_build_ok (b : CutDomain.TrackBuilder) (tid : CutDomain.TrackId)
    (hid : b.trackId = some tid) (hlen : 2 ≤ b.detections.length)
    (hsort : CutDomain.isSortedByOccurrence b.detections = true) :
    ∃ cls,
      pyClassify ((b.detections.map (CutDomain.retag tid)).map fun d =>
        (d.classification, d.confidence)) = some cls ∧
      b.build = Except.ok
        (⟨tid, cls, b.detections.map (CutDomain.retag tid)⟩, {}) := by
  have hbd := cut_build_detections_eq b tid hid
  obtain ⟨cls, hcls⟩ := pyClassify_isSome_of_ne_nil
    ((b.detections.map (CutDomain.retag tid)).map fun d =>
      (d.classification, d.confidence))
    (by
      intro he
      have hlen2 : ((b.detections.map (CutDomain.retag tid)).map fun d =>
          (d.classification, d.confidence)).length = 0 := by rw [he]; rfl
      simp only [List.length_map] at hlen2
      omega)
  have hl2 : ¬ (b.detections.map (CutDomain.retag tid)).length < 2 := by
    simp only [List.length_map]
    omega
  have hs2 : CutDomain.isSortedByOccurrence
      (b.detections.map (CutDomain.retag tid)) = true := by
    rw [cut_sorted_retag]
    exact hsort
  refine ⟨cls, hcls, ?_⟩
  unfold CutDomain.TrackBuilder.build
  simp only [hid, hbd, hcls]
  unfold CutDomain.mkTrack
  have hl3 : ¬ b.detections.length < 2 := by omega
  simp [hl2, hs2, hl3]

/-- When no remaining detection pair crosses the cutting line, the loop
accumulates every remaining detection and closes exactly one final
sub-track out of the builder's content plus the remaining detections. -/
theorem cutLoop_no_crossing (intersects : CutDomain.Detection →
      CutDomain.Detection → Bool) (origId : String) :
    ∀ (ds : List CutDomain.Detection) (b : CutDomain.TrackBuilder)
      (acc : List CutDomain.Track),
      ds ≠ [] →
      (∀ j p, (consecutivePairs ds).get? j = some p →
        intersects p.1 p.2 = false) →
      2 ≤ b.detections.length + ds.length →
      CutDomain.isSortedByOccurrence (b.detections ++ ds) = true →
      ∃ cls,
        pyClassify (((b.detections ++ ds).map
          (CutDomain.retag ⟨origId ++ "_" ++ toString (acc.length + 1)⟩)).map
            fun d => (d.classification, d.confidence)) = some cls ∧
        CutDomain.cutLoop intersects origId b acc ds =
          Except.ok (acc ++
            [⟨⟨origId ++ "_" ++ toString (acc.length + 1)⟩, cls,
              (b.detections ++ ds).map
                (CutDomain.retag ⟨origId ++ "_" ++ toString (acc.length + 1)⟩)⟩],
            {}) := by
  intro ds
  induction ds with
  | nil => intro b acc hne _ _ _; exact absurd rfl hne
  | cons c tl ih =>
    cases tl with
    | nil =>
      intro b acc _ _ hlen hsort
      obtain ⟨cls, hcls, hbuild⟩ := cut_build_ok
        ((b.add_id (origId ++ "_" ++ toString (acc.length + 1))).add_detection c)
        ⟨origId ++ "_" ++ toString (acc.length + 1)⟩ rfl
        (by
          simp only [CutDomain.TrackBuilder.add_detection,
            CutDomain.TrackBuilder.add_id, List.length_append,
            List.length_singleton]
          simpa using hlen)
        (by
          simpa [CutDomain.TrackBuilder.add_detection,
            CutDomain.TrackBuilder.add_id] using hsort)
      refine ⟨cls, ?_, ?_⟩
      · simpa [CutDomain.TrackBuilder.add_detection,
          CutDomain.TrackBuilder.add_id] using hcls
      · simp only [CutDomain.cutLoop, CutDomain.buildTrack, hbuild]
        simp [CutDomain.TrackBuilder.add_detection, CutDomain.TrackBuilder.add_id]
    | cons n rest =>
      intro b acc _ hcross hlen hsort
      have hcn : intersects c n = false := hcross 0 (c, n) rfl
      have hrec := ih (b.add_detection c) acc (by simp)
        (by
          intro j p hp
          exact hcross (j + 1) p hp)
        (by
          simp only [CutDomain.TrackBuilder.add_detection, List.length_append,
            List.length_singleton, List.length_cons] at hlen ⊢
          omega)
        (by
          simp only [CutDomain.TrackBuilder.add_detection, List.append_assoc,
            List.singleton_append]
          exact hsort)
      simp only [CutDomain.cutLoop, hcn, Bool.false_eq_true, if_false]
      simpa [CutDomain.TrackBuilder.add_detection, List.append_assoc] using hrec

/-- When exactly one remaining detection pair (the i-th) crosses the cutting
line, the loop closes exactly two sub-tracks: the builder's content plus
the detections up to and including the earlier detection of the crossing
pair, then all remaining detections, each classified over its own
detections. -/
theorem cutLoop_single_crossing (intersects : CutDomain.Detection →
      CutDomain.Detection → Bool) (origId : String) :
    ∀ (ds : List CutDomain.Detection) (i : ℕ) (b : CutDomain.TrackBuilder)
      (acc : List CutDomain.Track),
      (∀ j p, (consecutivePairs ds).get? j = some p →
        (intersects p.1 p.2 = true ↔ j = i)) →
      2 ≤ b.detections.length + (i + 1) →
      i + 3 ≤ ds.length →
      CutDomain.isSortedByOccurrence (b.detections ++ ds) = true →
      ∃ cls1 cls2,
        pyClassify (((b.detections ++ ds.take (i + 1)).map
          (CutDomain.retag ⟨origId ++ "_" ++ toString (acc.length + 1)⟩)).map
            fun d => (d.classification, d.confidence)) = some cls1 ∧
        pyClassify (((ds.drop (i + 1)).map
          (CutDomain.retag ⟨origId ++ "_" ++ toString (acc.length + 2)⟩)).map
            fun d => (d.classification, d.confidence)) = some cls2 ∧
        CutDomain.cutLoop intersects origId b acc ds =
          Except.ok (acc ++
            [⟨⟨origId ++ "_" ++ toString (acc.length + 1)⟩, cls1,
              (b.detections ++ ds.take (i + 1)).map
                (CutDomain.retag ⟨origId ++ "_" ++ toString (acc.length + 1)⟩)⟩,
             ⟨⟨origId ++ "_" ++ toString (acc.length + 2)⟩, cls2,
              (ds.drop (i + 1)).map
                (CutDomain.retag ⟨origId ++ "_" ++ toString (acc.length + 2)⟩)⟩],
            {}) := by
  intro ds
  induction ds with
  | nil =>
    intro i b acc _ _ hd _
    simp at hd
  | cons c tl ih =>
    cases tl with
    | nil =>
      intro i b acc _ _ hd _
      simp at hd
    | cons n rest =>
      intro i b acc hcross hfst hlen hsort
      cases i with
      | zero =>
        have hcn : intersects c n = true := (hcross 0 (c, n) rfl).mpr rfl
        have hsort1 : CutDomain.isSortedByOccurrence (b.detections ++ [c]) = true ∧
            CutDomain.isSortedByOccurrence (n :: rest) = true := by
          refine cut_sorted_append (b.detections ++ [c]) (n :: rest) ?_
          simpa [List.append_assoc] using hsort
        obtain ⟨cls1, hcls1, hbuild1⟩ := cut_build_ok
          ((b.add_id (origId ++ "_" ++ toString (acc.length + 1))).add_detection c)
          ⟨origId ++ "_" ++ toString (acc.length + 1)⟩ rfl
          (by
            simp only [CutDomain.TrackBuilder.add_detection,
              CutDomain.TrackBuilder.add_id, List.length_append,
              List.length_singleton]
            omega)
          (by
            simpa [CutDomain.TrackBuilder.add_detection,
              CutDomain.TrackBuilder.add_id] using hsort1.1)
        obtain ⟨cls2, hcls2, hrest⟩ := cutLoop_no_crossing intersects origId
          (n :: rest) {}
          (acc ++ [⟨⟨origId ++ "_" ++ toString (acc.length + 1)⟩, cls1,
            (b.detections ++ [c]).map
              (CutDomain.retag ⟨origId ++ "_" ++ toString (acc.length + 1)⟩)⟩])
          (by simp)
          (by
            intro j p hp
            have h2 := hcross (j + 1) p hp
            cases hint : intersects p.1 p.2 with
            | false => rfl
            | true => exact absurd (h2.mp hint) (by omega))
          (by
            simp only [List.length_cons, List.length_nil]
            simp only [List.length_cons] at hlen
            omega)
          (by simpa using hsort1.2)
        refine ⟨cls1, cls2, ?_, ?_, ?_⟩
        · simpa [CutDomain.TrackBuilder.add_detection,
            CutDomain.TrackBuilder.add_id] using hcls1
        · simpa [List.length_append] using hcls2
        · simp only [CutDomain.TrackBuilder.add_detection,
            CutDomain.TrackBuilder.add_id] at hbuild1
          simp only [CutDomain.cutLoop, hcn, if_true, CutDomain.buildTrack,
            CutDomain.TrackBuilder.add_detection,
            CutDomain.TrackBuilder.add_id, hbuild1]
          rw [hrest]
          simp [List.length_append, List.append_assoc, Nat.add_assoc]
      | succ i1 =>
        have hcn : intersects c n = false := by
          have := hcross 0 (c, n) rfl
          rcases hint : intersects c n with _ | _
          · rfl
          · exact absurd (this.mp hint) (by omega)
        have hrec := ih i1 (b.add_detection c) acc
          (by
            intro j p hp
            rw [show (j = i1) = (j + 1 = i1 + 1) from by
              simp [Nat.succ_inj]]
            exact hcross (j + 1) p hp)
          (by
            simp only [CutDomain.TrackBuilder.add_detection, List.length_append,
              List.length_singleton] at hfst ⊢
            omega)
          (by
            simp only [List.length_cons] at hlen ⊢
            omega)
          (by
            simp only [CutDomain.TrackBuilder.add_detection, List.append_assoc,
              List.singleton_append]
            exact hsort)
        simp only [CutDomain.cutLoop, hcn, Bool.false_eq_true, if_false]
        simpa [CutDomain.TrackBuilder.add_detection, List.append_assoc,
          List.take_succ_cons, List.drop_succ_cons] using hrec

/-- Counterexample for claim C3 as stated: `trackE` has exactly one
detection-pair segment and it crosses the cutting section, yet cutting does
not produce two sub-tracks — the first closed-out sub-track holds a single
detection, so construction raises instead. -/
theorem cut_track_boundary_crossing_counterexample :
    (consecutivePairs CutDomain.trackE.detections).length = 1 ∧
      ((consecutivePairs CutDomain.trackE.detections).head?.map fun p =>
        CutDomain.alwaysCross p.1 p.2) = some true ∧
      CutDomain.cutTrackWithSection CutDomain.alwaysCross CutDomain.trackE {} =
        Except.error "BuildTrackWithSingleDetectionError" :=
  ⟨rfl, rfl, rfl⟩

/-- Claim C3 (amended): for every track whose detection-pair segments cross
the cutting section exactly once, at a pair index i with both at least two
detections before the cut point and at least two after (1 <= i <=
detections - 3), cutting produces exactly two sub-tracks with synthetic ids
"<original_id>_1" and "<original_id>_2", whose detection sequences are the
disjoint contiguous take/drop split of the original covering every
detection exactly once, each classified by the max-confidence-sum
calculator over only its own detections. -/
theorem cut_track_single_interior_crossing
    (intersects : CutDomain.Detection → CutDomain.Detection → Bool)
    (track : CutDomain.Track) (i : ℕ)
    (hsorted : CutDomain.isSortedByOccurrence track.detections = true)
    (hcross : ∀ j p, (consecutivePairs track.detections).get? j = some p →
      (intersects p.1 p.2 = true ↔ j = i))
    (hi1 : 1 ≤ i) (hi2 : i + 3 ≤ track.detections.length) :
    ∃ cls1 cls2,
      pyClassify (((track.detections.take (i + 1)).map
        (CutDomain.retag ⟨track.id.id ++ "_" ++ "1"⟩)).map fun d =>
          (d.classification, d.confidence)) = some cls1 ∧
      pyClassify (((track.detections.drop (i + 1)).map
        (CutDomain.retag ⟨track.id.id ++ "_" ++ "2"⟩)).map fun d =>
          (d.classification, d.confidence)) = some cls2 ∧
      CutDomain.cutTrackWithSection intersects track {} =
        Except.ok ([⟨⟨track.id.id ++ "_" ++ "1"⟩, cls1,
            (track.detections.take (i + 1)).map
              (CutDomain.retag ⟨track.id.id ++ "_" ++ "1"⟩)⟩,
          ⟨⟨track.id.id ++ "_" ++ "2"⟩, cls2,
            (track.detections.drop (i + 1)).map
              (CutDomain.retag ⟨track.id.id ++ "_" ++ "2"⟩)⟩], {}) ∧
      track.detections.take (i + 1) ++ track.detections.drop (i + 1) =
        track.detections := by
  obtain ⟨cls1, cls2, h1, h2, h3⟩ := cutLoop_single_crossing intersects
    track.id.id track.detections i {} [] hcross
    (by
      show 2 ≤ (List.length []) + (i + 1)
      simp only [List.length_nil]
      omega)
    hi2
    (by simpa using hsorted)
  refine ⟨cls1, cls2, ?_, ?_, ?_, List.take_append_drop _ _⟩
  · exact h1
  · exact h2
  · unfold CutDomain.cutTrackWithSection
    simpa using h3

/-- Witness for the amended claim C3: `trackD` (four detections, classes
car, car, bike, bike) crossed exactly at its middle pair splits into two
two-detection sub-tracks. -/
theorem cut_track_witness :
    CutDomain.isSortedByOccurrence CutDomain.trackD.detections = true ∧
      (∀ j p, (consecutivePairs CutDomain.trackD.detections).get? j = some p →
        (CutDomain.crossAtMiddle p.1 p.2 = true ↔ j = 1)) ∧
      1 ≤ 1 ∧ 1 + 3 ≤ CutDomain.trackD.detections.length ∧
      ∃ cls1 cls2,
        pyClassify (((CutDomain.trackD.detections.take 2).map
          (CutDomain.retag ⟨CutDomain.trackD.id.id ++ "_" ++ "1"⟩)).map fun d =>
            (d.classification, d.confidence)) = some cls1 ∧
        pyClassify (((CutDomain.trackD.detections.drop 2).map
          (CutDomain.retag ⟨CutDomain.trackD.id.id ++ "_" ++ "2"⟩)).map fun d =>
            (d.classification, d.confidence)) = some cls2 ∧
        CutDomain.cutTrackWithSection CutDomain.crossAtMiddle CutDomain.trackD
          {} =
          Except.ok ([⟨⟨CutDomain.trackD.id.id ++ "_" ++ "1"⟩, cls1,
              (CutDomain.trackD.detections.take 2).map
                (CutDomain.retag ⟨CutDomain.trackD.id.id ++ "_" ++ "1"⟩)⟩,
            ⟨⟨CutDomain.trackD.id.id ++ "_" ++ "2"⟩, cls2,
              (CutDomain.trackD.detections.drop 2).map
                (CutDomain.retag ⟨CutDomain.trackD.id.id ++ "_" ++ "2"⟩)⟩],
            {}) ∧
        CutDomain.trackD.detections.take 2 ++
            CutDomain.trackD.detections.drop 2 =
          CutDomain.trackD.detections := by
  have hsorted : CutDomain.isSortedByOccurrence CutDomain.trackD.detections =
      true := by
    norm_num [CutDomain.isSortedByOccurrence, CutDomain.trackD,
      CutDomain.detD1, CutDomain.detD2, CutDomain.detD3, CutDomain.detD4,
      List.chain'_cons, List.chain'_singleton]
  have hcross : ∀ j p,
      (consecutivePairs CutDomain.trackD.detections).get? j = some p →
      (CutDomain.crossAtMiddle p.1 p.2 = true ↔ j = 1) := by
    intro j p hp
    cases j with
    | zero =>
      rw [show (consecutivePairs CutDomain.trackD.detections).get? 0 =
        some (CutDomain.detD1, CutDomain.detD2) from rfl] at hp
      obtain rfl := Option.some.inj hp
      norm_num [CutDomain.crossAtMiddle, CutDomain.detD1]
    | succ j1 =>
      cases j1 with
      | zero =>
        rw [show (consecutivePairs CutDomain.trackD.detections).get? 1 =
          some (CutDomain.detD2, CutDomain.detD3) from rfl] at hp
        obtain rfl := Option.some.inj hp
        norm_num [CutDomain.crossAtMiddle, CutDomain.detD2]
      | succ j2 =>
        cases j2 with
        | zero =>
          rw [show (consecutivePairs CutDomain.trackD.detections).get? 2 =
            some (CutDomain.detD3, CutDomain.detD4) from rfl] at hp
          obtain rfl := Option.some.inj hp
          norm_num [CutDomain.crossAtMiddle, CutDomain.detD3]
        | succ j3 =>
          obtain ⟨hl, -⟩ := List.get?_eq_some.mp hp
          rw [show (consecutivePairs CutDomain.trackD.detections).length = 3
            from rfl] at hl
          omega
  exact ⟨hsorted, hcross, le_refl 1, by decide,
    cut_track_single_interior_crossing CutDomain.crossAtMiddle
      CutDomain.trackD 1 hsorted hcross (le_refl 1) (by decide)⟩
